import Mathlib

/-!
A shallow embedding of the expr-language editor type-resolution engine:
the type model (`typing.ts`), the classifier and equality functions, the
member resolver, the generic-unification resolver and the per-node
expression type resolver (`resolver.ts`), the ambient scope attachment
(`props.ts`) and the node/group names (`nodes.ts`).

Conventions used throughout:
* JavaScript records (objects used as string-keyed maps) are modelled as
  association lists `Rec V := List (String × V)` in which a later entry
  overrides an earlier one (`jsLookup` returns the last match), so that
  the JS spread `{...a, ...b}` is exactly `a ++ b`.
* The JavaScript `null` value, which can flow through `Definition`-typed
  bindings (`getMember` returns `null` on a failed lookup), is modelled
  by the extra constructor `Definition.jsNull`.
* Functions that can throw a `TypeError` (by dereferencing `null`) or
  fail to terminate (cyclic type registries, cyclic pipe trees) are
  modelled with an explicit fuel argument and return `Except Unit _`;
  `.error ()` means the JS computation does not return normally.
-/

namespace ExprSpec

/-- The discriminant tags of `Kind` and `ExprKind` in typing.ts (`t.type` in the
source), plus a tag classifying the JS `null` value. -/
inductive TKind where
  | int8 | uint8 | int16 | uint16 | int32 | uint32 | int64 | uint64
  | int | uint | uintptr
  | float32 | float64 | complex64 | complex128
  | bool | string | byte | rune
  | array | slice | mapT | funcT | structT
  | pointer | channel
  | interface | error | any | nil
  | generic | defined
  | number | float | optional
  | jsNull
deriving DecidableEq, Repr

mutual

/-- typing.ts `Definition`: the tagged-union type representation.  The payload of
each composite constructor mirrors the corresponding `…Definition` type.  A
`func` carries its optional `generics` constraint table, its argument list and
its return list.  `jsNull` models the JS `null` value in `Definition` position
(descriptions, deprecation flags and the `package` field are not part of the
resolution logic and are elided). -/
inductive Definition where
  | jsNull
  | int8 | uint8 | int16 | uint16 | int32 | uint32 | int64 | uint64
  | int | uint | uintptr
  | float32 | float64 | complex64 | complex128
  | bool | string | byte | rune
  | slice (item : Definition)
  | array (size : Nat) (item : Definition)
  | map (key : Definition) (value : Definition)
  | func (generics : Option (List (String × List Definition)))
         (args : List ArgumentDefinition) (returns : List Definition)
  | struct (fields : List FieldDefinition)
  | pointer (dest : Definition)
  | channel (item : Definition)
  | interface | error | any | nil
  | number | float
  | optional (item : Definition)
  | generic (gname : String)
  | defined (typeName : String)

/-- typing.ts `ArgumentDefinition`: a `Definition` together with a name and the
optional `required` (default `true`) and `variadic` (default `false`) flags. -/
inductive ArgumentDefinition where
  | mk (name : String) (type : Definition) (required : Bool) (variadic : Bool)

/-- typing.ts `FieldDefinition`: a named `Definition` with the optional
`embedded` (default `false`) flag; the `name` component is the record key. -/
inductive FieldDefinition where
  | mk (name : String) (type : Definition) (embedded : Bool)

end

def ArgumentDefinition.name : ArgumentDefinition → String
  | .mk n _ _ _ => n

def ArgumentDefinition.type : ArgumentDefinition → Definition
  | .mk _ t _ _ => t

def ArgumentDefinition.required : ArgumentDefinition → Bool
  | .mk _ _ r _ => r

def ArgumentDefinition.variadic : ArgumentDefinition → Bool
  | .mk _ _ _ v => v

def FieldDefinition.name : FieldDefinition → String
  | .mk n _ _ => n

def FieldDefinition.type : FieldDefinition → Definition
  | .mk _ t _ => t

def FieldDefinition.embedded : FieldDefinition → Bool
  | .mk _ _ e => e

/-- The discriminant (`t.type` in the source) of a `Definition` value. -/
def Definition.kind : Definition → TKind
  | .jsNull => .jsNull
  | .int8 => .int8 | .uint8 => .uint8 | .int16 => .int16 | .uint16 => .uint16
  | .int32 => .int32 | .uint32 => .uint32 | .int64 => .int64 | .uint64 => .uint64
  | .int => .int | .uint => .uint | .uintptr => .uintptr
  | .float32 => .float32 | .float64 => .float64
  | .complex64 => .complex64 | .complex128 => .complex128
  | .bool => .bool | .string => .string | .byte => .byte | .rune => .rune
  | .slice _ => .slice
  | .array _ _ => .array
  | .map _ _ => .mapT
  | .func _ _ _ => .funcT
  | .struct _ => .structT
  | .pointer _ => .pointer
  | .channel _ => .channel
  | .interface => .interface | .error => .error | .any => .any | .nil => .nil
  | .number => .number | .float => .float
  | .optional _ => .optional
  | .generic _ => .generic
  | .defined _ => .defined

/-- A JS object used as a string-keyed record: an association list in which a
later entry overrides an earlier one, so `{...a, ...b}` is `a ++ b`. -/
abbrev Rec (V : Type) : Type := List (String × V)

/-- Value lookup in a JS record: the last entry for the key wins. -/
def jsLookup : Rec V → String → Option V
  | [], _ => none
  | (k', v) :: t, k =>
    match jsLookup t k with
    | some w => some w
    | none => if k' == k then some v else none

/-- The JS `key in record` test. -/
def jsMem (r : Rec V) (k : String) : Bool :=
  r.any (fun p => p.1 == k)

/-- resolver.ts `isNumber`: the fixed-width integer and float kinds, the generic
`int`, and the inference-only `number` and `float` tags.  `uint`, `uintptr`,
`byte`, `rune` and the complex kinds are not in the list. -/
def isNumber (t : Definition) : Bool :=
  match t.kind with
  | .int8 | .int16 | .int32 | .int64 | .uint8 | .uint16
  | .uint32 | .uint64 | .float32 | .float64 | .int
  | .number | .float => true
  | _ => false

/-- resolver.ts `isSlice`. -/
def isSlice (t : Definition) : Bool :=
  !(t.kind == .jsNull) && (t.kind == .slice || t.kind == .array)

/-- resolver.ts `isUnknownType`: `!t`, `any` or `interface`. -/
def isUnknownType (t : Definition) : Bool :=
  t.kind == .jsNull || t.kind == .any || t.kind == .interface

/-- resolver.ts `isPredicativeFunc`: the fixed set of predicate-taking builtins. -/
def isPredicativeFunc (name : String) : Bool :=
  match name with
  | "all" | "any" | "one" | "none" | "filter" | "find"
  | "findIndex" | "findLast" | "findLastIndex" | "groupBy" | "count"
  | "map" | "reduce" | "sortBy" | "sum" => true
  | _ => false

mutual

/-- resolver.ts `isEquals`: `false` if either side is null; if the kinds differ,
equal only if both are numeric or the left side is `optional`/`pointer` and the
right side is `nil`; if the kinds match, structural comparison for `defined`,
`channel`, `map`, `pointer` and `func`, and `true` for every other kind pair
(which at this point always has `a.type === b.type`). -/
def isEquals (a b : Definition) : Bool :=
  if a.kind == .jsNull || b.kind == .jsNull then false
  else if a.kind != b.kind then
    (isNumber a && isNumber b) ||
      ((a.kind == .optional || a.kind == .pointer) && b.kind == .nil)
  else
    match a, b with
    | .defined n1, .defined n2 => n1 == n2
    | .channel i1, .channel i2 => isEquals i1 i2
    | .map k1 v1, .map k2 v2 => isEquals k1 k2 && isEquals v1 v2
    | .pointer t1, .pointer t2 => isEquals t1 t2
    | .func _ a1 r1, .func _ a2 r2 =>
        a1.length == a2.length && r1.length == r2.length &&
          isEqualsArgs a1 a2 && isEqualsList r1 r2
    | _, _ => true

/-- The pairwise `a.args.every((arg, idx) => isEquals(arg, b.args[idx]))` over
argument lists whose lengths were already checked equal. -/
def isEqualsArgs : List ArgumentDefinition → List ArgumentDefinition → Bool
  | .mk _ t1 _ _ :: as1, .mk _ t2 _ _ :: as2 => isEquals t1 t2 && isEqualsArgs as1 as2
  | _, _ => true

/-- The pairwise `a.returns.every((ret, idx) => isEquals(ret, b.returns[idx]))`
over return lists whose lengths were already checked equal. -/
def isEqualsList : List Definition → List Definition → Bool
  | t1 :: l1, t2 :: l2 => isEquals t1 t2 && isEqualsList l1 l2
  | _, _ => true

end

/-! ## Generic resolver (resolver.ts `collectGenerics`, `patchGenerics`,
`resolveFuncGenerics`) -/

mutual

/-- resolver.ts `collectGenerics`: destructure a declared (expected) type
against an actual argument type and collect bindings for every `generic`
placeholder.  Returns the empty record when either side is null or the shapes
do not match. -/
def collectGenerics (t a : Definition) : Rec Definition :=
  if t.kind == .jsNull || a.kind == .jsNull then []
  else
    match t, a with
    | .generic g, a => [(g, a)]
    | .array _ ti, .array _ ai => collectGenerics ti ai
    | .slice ti, .slice ai => collectGenerics ti ai
    | .channel ti, .channel ai => collectGenerics ti ai
    | .map tk tv, .map ak av => collectGenerics tk ak ++ collectGenerics tv av
    | .pointer ti, .pointer ai => collectGenerics ti ai
    | .func _ tas trs, .func _ aas ars =>
        collectGenericsArgs tas aas ++ collectGenericsList trs ars
    | _, _ => []
termination_by sizeOf t

/-- The `t.args.reduce(...)` part of the `func` case: pairwise collection over
argument lists, a missing actual argument (`a.args[idx]` past the end, i.e. the
JS `undefined`) collecting nothing; a later argument position overrides an
earlier one inside one destructuring (`{...acc, ...collectGenerics(...)}`). -/
def collectGenericsArgs : List ArgumentDefinition → List ArgumentDefinition → Rec Definition
  | [], _ => []
  | .mk _ tty _ _ :: tas, aas =>
      collectGenerics tty ((aas.head?.map ArgumentDefinition.type).getD .jsNull) ++
        collectGenericsArgs tas aas.tail
termination_by tas _ => sizeOf tas

/-- The `t.returns.reduce(...)` part of the `func` case, same conventions as
`collectGenericsArgs`. -/
def collectGenericsList : List Definition → List Definition → Rec Definition
  | [], _ => []
  | tr :: trs, ars =>
      collectGenerics tr (ars.head?.getD .jsNull) ++ collectGenericsList trs ars.tail
termination_by trs _ => sizeOf trs

end

mutual

/-- resolver.ts `patchGenerics`: substitute every `generic` occurrence through
slice/array/channel/map/pointer/optional/func nesting with its binding in `m`;
the `func` case drops the `generics` table.  A `generic` with no binding keeps
its tag (in JS the spread `{...rest, ...m[t.generic]}` with an `undefined`
binding keeps the `generic` tag and only loses the name field; no declared
generic is ever unbound because `resolveFuncGenerics` defaults them). -/
def patchGenerics (m : Rec Definition) : Definition → Definition
  | .slice it => .slice (patchGenerics m it)
  | .array n it => .array n (patchGenerics m it)
  | .channel it => .channel (patchGenerics m it)
  | .map k v => .map (patchGenerics m k) (patchGenerics m v)
  | .pointer d => .pointer (patchGenerics m d)
  | .optional it => .optional (patchGenerics m it)
  | .func _ args rets => .func none (patchGenericsArgs m args) (patchGenericsList m rets)
  | .generic g =>
      match jsLookup m g with
      | some d => d
      | none => .generic g
  | t => t

/-- `t.args.map(a => patchGenerics(m, a))`: the substitution runs on the
`Definition` part of each `ArgumentDefinition`, keeping name and flags. -/
def patchGenericsArgs (m : Rec Definition) : List ArgumentDefinition → List ArgumentDefinition
  | [] => []
  | .mk n t r v :: rest => .mk n (patchGenerics m t) r v :: patchGenericsArgs m rest

/-- `t.returns.map(r => patchGenerics(m, r))`. -/
def patchGenericsList (m : Rec Definition) : List Definition → List Definition
  | [] => []
  | t :: rest => patchGenerics m t :: patchGenericsList m rest

end

/-- The binding-collection loop of resolver.ts `resolveFuncGenerics` (lines
386-396).  `i` is the current argument index, `acc` the record of bindings
established so far.  The declared parameter index is `min(i, f.args.length-1)`;
when it differs from `i` and the last declared parameter is not variadic the
loop breaks.  When `f.args` is empty the JS code reads `.variadic` of
`undefined` and throws, modelled by `.error ()`.  For a predicate-taking
builtin whose declared parameter is a one-return `func`, that return type
replaces the expected type (`stepExpected`).  New bindings are merged under the existing ones
(`{...collectGenerics(expected, actual), ...generics}`), so an earlier
argument position wins. -/
def stepExpected (pred : Bool) (exp : ArgumentDefinition) : Definition :=
  match exp.type with
  | .func _ _ [r] => if pred then r else exp.type
  | _ => exp.type

def genericsGo (fargs : List ArgumentDefinition) (pred : Bool) :
    List Definition → Nat → Rec Definition → Except Unit (Rec Definition)
  | [], _, acc => .ok acc
  | actual :: rest, i, acc =>
    let defIdx := if i < fargs.length then i else fargs.length - 1
    match fargs[defIdx]? with
    | none => .error ()
    | some exp =>
      if defIdx != i && !exp.variadic then .ok acc
      else genericsGo fargs pred rest (i + 1) (collectGenerics (stepExpected pred exp) actual ++ acc)

/-- The per-position binding records that `genericsGo` merges, in processing
order: position `i` contributes `collectGenerics` of its expected/actual pair;
the list stops where the loop breaks (or would throw). -/
def collectedAt (fargs : List ArgumentDefinition) (pred : Bool) :
    List Definition → Nat → List (Rec Definition)
  | [], _ => []
  | actual :: rest, i =>
    let defIdx := if i < fargs.length then i else fargs.length - 1
    match fargs[defIdx]? with
    | none => []
    | some exp =>
      if defIdx != i && !exp.variadic then []
      else collectGenerics (stepExpected pred exp) actual :: collectedAt fargs pred rest (i + 1)

/-- One iteration of the `Object.keys(f.generics).forEach(...)` step of
`resolveFuncGenerics`: default the declared generic to `any` when unbound; keep
a binding that is structurally equal to (or excused by an unknown type in) its
constraint list, otherwise replace it with the first declared constraint.
(With an empty constraint list JS stores `undefined`; that corner is modelled
by `jsNull` and is unreachable from the builtin registry, whose constraint
lists are never empty.) -/
def constraintStep (r : Rec Definition) (gc : String × List Definition) : Rec Definition :=
  let r := if jsMem r gc.1 then r else r ++ [(gc.1, Definition.any)]
  let bound := (jsLookup r gc.1).getD .jsNull
  if gc.2.any (fun t => isUnknownType t || isEquals bound t) then r
  else r ++ [(gc.1, gc.2.head?.getD .jsNull)]

/-- The whole `Object.keys(f.generics).forEach(...)` step, iterating
`constraintStep` over the declared generics in declaration order. -/
def constraintFold (gs : List (String × List Definition)) (r : Rec Definition) : Rec Definition :=
  gs.foldl constraintStep r

/-- resolver.ts `resolveFuncGenerics`: if `f` has no `generics` table (or is
not a `func`, so that `f.generics` is `undefined`), return `f` unchanged;
otherwise collect bindings over the argument positions, default and validate
them against the declared constraints, and substitute them through the
signature. -/
def resolveFuncGenerics (f : Definition) (args : List Definition) (name : String) :
    Except Unit Definition :=
  match f with
  | .func (some gs) fargs _ => do
      let collected ← genericsGo fargs (isPredicativeFunc name) args 0 []
      .ok (patchGenerics (constraintFold gs collected) f)
  | t => .ok t

/-! ## Scopes, the builtin registry and the member resolver -/

/-- typing.ts `VariableDefinition`: a `Definition` with a name and description
(the optional deprecation flag is elided; no resolver logic reads it). -/
structure VariableDefinition where
  name : String
  description : String := ""
  type : Definition

/-- A runtime definition object as the member resolver sees it: its
`Definition` part together with the `methods` table it carries when (and only
when) it is a `TypeDefinition` registry entry (`"methods" in src` in the
source; `none` models an absent key). -/
structure DefObj where
  d : Definition
  methods : Option (Rec Definition) := none

/-- typing.ts `Scope`: the variable and named-type registries.  Registry
entries are `TypeDefinition`s: a `Definition` plus an optional methods table
(their `name`/`package`/description fields are elided; method values are
modelled by their `func` `Definition` part, the `receiver` is elided).  The
`variables` field of the source is called `vars` here because `variables` is
reserved by Lean. -/
structure Scope where
  vars : Rec VariableDefinition
  types : Rec DefObj

/-- resolver.ts `resolveRef`: a `defined` type resolves to its registry entry
when present; anything else (including an unregistered `defined`) stays as a
plain definition object without methods. -/
def resolveRef (s : Scope) (t : Definition) : DefObj :=
  match t with
  | .defined n =>
    match jsLookup s.types n with
    | some td => td
    | none => ⟨t, none⟩
  | _ => ⟨t, none⟩

/-- resolver.ts `getBaseType`: follow `defined` indirection through the
registry while possible.  The JS `while` loop never exits on a cyclic registry;
running out of fuel (`.error ()`) models that divergence. -/
def getBaseTypeF : Nat → Scope → Definition → Except Unit Definition
  | 0, _, _ => .error ()
  | fuel + 1, s, t =>
    match t with
    | .defined n =>
      match jsLookup s.types n with
      | some td => getBaseTypeF fuel s td.d
      | none => .ok t
    | _ => .ok t

/-- Lookup of a direct struct field by record key (`name in src.fields`,
`src.fields[name]`). -/
def fieldLookup (fields : List FieldDefinition) (name : String) : Option Definition :=
  jsLookup (fields.map (fun f => (f.name, f.type))) name

/-- The `src.type === Kind.Struct && name in (src.fields ?? {})` direct-field
test of `getMember`. -/
def directField (d : Definition) (name : String) : Option Definition :=
  match d with
  | .struct fields => fieldLookup fields name
  | _ => none

mutual

/-- resolver.ts `getMember`: direct struct field first, then method table, then
declaration-order scan of embedded fields (resolving `defined` references), or
through the registry for a `defined` source; `none` is the JS `null` result.
A null source (`src.type` on `null`) throws, and a cyclic embedding or
registry chain never returns; both are `.error ()`. -/
def getMemberF : Nat → Scope → DefObj → String → Except Unit (Option Definition)
  | 0, _, _, _ => .error ()
  | fuel + 1, s, src, name =>
    if src.d.kind == .jsNull then .error ()
    else
      match directField src.d name with
      | some f => .ok (some f)
      | none =>
        match src.methods.bind (fun ms => jsLookup ms name) with
        | some m => .ok (some m)
        | none =>
          match src.d with
          | .struct fields => memberScanF fuel s fields name
          | .defined _ => getMemberF fuel s (resolveRef s src.d) name
          | _ => .ok none

/-- The embedded-field scan of `getMember`: in declaration order, recurse into
each field whose type is a `defined` reference flagged `embedded`, returning
the first hit. -/
def memberScanF : Nat → Scope → List FieldDefinition → String → Except Unit (Option Definition)
  | 0, _, _, _ => .error ()
  | _ + 1, _, [], _ => .ok none
  | fuel + 1, s, f :: rest, name =>
    if f.type.kind == .defined && f.embedded then
      match getMemberF fuel s (resolveRef s f.type) name with
      | .error e => .error e
      | .ok (some m) => .ok (some m)
      | .ok none => memberScanF fuel s rest name
    else memberScanF fuel s rest name

end

mutual

/-- resolver.ts `getMembers`: the full visible member table — the methods
table, then (for a struct) the direct fields, then the promoted members of
each embedded field merged after them, so a promoted member overrides a direct
field of the same name; a `defined` source merges its registry entry members
over the method table.  Cyclic embedding or registry chains never return
(`.error ()` on fuel exhaustion). -/
def getMembersF : Nat → Scope → DefObj → Except Unit (Rec Definition)
  | 0, _, _ => .error ()
  | fuel + 1, s, src =>
    if src.d.kind == .jsNull then .error ()
    else
      let members : Rec Definition := (src.methods.getD [])
      match src.d with
      | .struct fields =>
          promoteFoldF fuel s fields (members ++ fields.map (fun f => (f.name, f.type)))
      | .defined _ =>
          match getMembersF fuel s (resolveRef s src.d) with
          | .error e => .error e
          | .ok promoted => .ok (members ++ promoted)
      | _ => .ok members

/-- The embedded-field loop of `getMembers`: for each field (in declaration
order) whose type is a `defined` reference flagged `embedded`, merge the
members of the resolved reference after the accumulated table. -/
def promoteFoldF : Nat → Scope → List FieldDefinition → Rec Definition → Except Unit (Rec Definition)
  | 0, _, _, _ => .error ()
  | _ + 1, _, [], acc => .ok acc
  | fuel + 1, s, f :: rest, acc =>
    if f.type.kind == .defined && f.embedded then
      match getMembersF fuel s (resolveRef s f.type) with
      | .error e => .error e
      | .ok promoted => promoteFoldF fuel s rest (acc ++ promoted)
    else promoteFoldF fuel s rest acc

end

/-! ## The builtin registry (typing.ts `builtIn`)

Only the entries that participate in resolution logic are embedded: `$env` and
the fifteen predicate-taking builtins that `isPredicativeFunc` recognises and
`getPredicateScope` looks up.  The remaining string/date/number/map/bitwise
entries and all HTML `description` strings are plain data that no claim (and no
resolver branch) ever reads, and are elided; `builtIn.types` (the `time.*`
entries) is likewise elided. -/

/-- A slice of the generic element type `T`. -/
def sliceT : Definition := .slice (.generic "T")

/-- The `array` parameter `{name: "array", type: slice<T>}` shared by the
predicate builtins. -/
def arrayParam : ArgumentDefinition := .mk "array" sliceT true false

/-- A one-parameter boolean predicate `func(#: T): bool`. -/
def boolPredicate : ArgumentDefinition :=
  .mk "predicate" (.func none [.mk "#" (.generic "T") true false] [.bool]) true false

/-- typing.ts `builtIn.variables.map`: `func<T, R>(array: slice<T>,
predicate: func(#index: int, #: T): R): slice<R>`. -/
def mapBuiltin : Definition :=
  .func (some [("T", [.any]), ("R", [.any])])
    [arrayParam,
     .mk "predicate"
       (.func none [.mk "#index" .int true false, .mk "#" (.generic "T") true false]
         [.generic "R"]) true false]
    [.slice (.generic "R")]

/-- typing.ts `builtIn.variables.filter`: `func<T>(array: slice<T>,
predicate: func(#: T): bool): slice<T>`. -/
def filterBuiltin : Definition :=
  .func (some [("T", [.any])]) [arrayParam, boolPredicate] [sliceT]

/-- typing.ts `builtIn.variables.reduce`: `func<T, T2, R>(array: slice<T>,
predicate: func(#index: int, #: T, #acc: T2): R, initialValue?: T2): R`. -/
def reduceBuiltin : Definition :=
  .func (some [("T", [.any]), ("T2", [.any]), ("R", [.any])])
    [arrayParam,
     .mk "predicate"
       (.func none
         [.mk "#index" .int true false, .mk "#" (.generic "T") true false,
          .mk "#acc" (.generic "T2") true false]
         [.generic "R"]) true false,
     .mk "initialValue" (.generic "T2") false false]
    [.generic "R"]

/-- typing.ts `builtIn.variables.sum`: `func<T, R: number>(array: slice<T>,
predicate?: func(#index: int, #: T): R): float`. -/
def sumBuiltin : Definition :=
  .func (some [("T", [.any]), ("R", [.number])])
    [arrayParam,
     .mk "predicate"
       (.func none [.mk "#index" .int true false, .mk "#" (.generic "T") true false]
         [.generic "R"]) false false]
    [.float]

/-- typing.ts `builtIn.variables.groupBy`: `func<T, R>(array: slice<T>,
predicate: func(#: T): R): map<R, slice<T>>`. -/
def groupByBuiltin : Definition :=
  .func (some [("T", [.any]), ("R", [.any])])
    [arrayParam,
     .mk "predicate" (.func none [.mk "#" (.generic "T") true false] [.generic "R"]) true false]
    [.map (.generic "R") sliceT]

/-- typing.ts `builtIn.variables.sortBy`: `func<T>(array: slice<T>,
predicate: func(#: T): any, order?: string): slice<T>`. -/
def sortByBuiltin : Definition :=
  .func (some [("T", [.any])])
    [arrayParam,
     .mk "predicate" (.func none [.mk "#" (.generic "T") true false] [.any]) true false,
     .mk "order" .string false false]
    [sliceT]

/-- The shared shape of `all`, `any`, `one`, `none`, `count`, `findIndex` and
`findLastIndex` up to the return type, and of `find`/`findLast`:
`func<T>(array: slice<T>, predicate: func(#: T): bool): ret`. -/
def boolPredBuiltin (ret : Definition) : Definition :=
  .func (some [("T", [.any])]) [arrayParam, boolPredicate] [ret]

/-- typing.ts `builtIn.variables`, restricted to `$env` and the predicate
builtins (see the section comment). -/
def builtInVariables : Rec VariableDefinition :=
  [("$env", ⟨"$env", "", .map .string .any⟩),
   ("all", ⟨"all", "", boolPredBuiltin .bool⟩),
   ("any", ⟨"any", "", boolPredBuiltin .bool⟩),
   ("one", ⟨"one", "", boolPredBuiltin .bool⟩),
   ("none", ⟨"none", "", boolPredBuiltin .bool⟩),
   ("map", ⟨"map", "", mapBuiltin⟩),
   ("filter", ⟨"filter", "", filterBuiltin⟩),
   ("find", ⟨"find", "", boolPredBuiltin (.optional (.generic "T"))⟩),
   ("findIndex", ⟨"findIndex", "", boolPredBuiltin (.optional .int)⟩),
   ("findLast", ⟨"findLast", "", boolPredBuiltin (.optional (.generic "T"))⟩),
   ("findLastIndex", ⟨"findLastIndex", "", boolPredBuiltin (.optional .int)⟩),
   ("groupBy", ⟨"groupBy", "", groupByBuiltin⟩),
   ("count", ⟨"count", "", boolPredBuiltin .int⟩),
   ("reduce", ⟨"reduce", "", reduceBuiltin⟩),
   ("sortBy", ⟨"sortBy", "", sortByBuiltin⟩),
   ("sum", ⟨"sum", "", sumBuiltin⟩)]

/-- typing.ts `builtIn` (types elided, see the section comment). -/
def builtIn : Scope := ⟨builtInVariables, []⟩

/-! ## The parsed tree and editor state

The parser itself is external (`@exprlang/parser`).  A parsed tree is modelled
as a tree of named nodes with source spans; a `SyntaxNode` is a focused
position in such a tree (a zipper), supporting the lezer navigation the
resolver uses: `parent`, `prevSibling`, `getChild(s)` by node name or group,
and source spans (`from`/`to`, called `start`/`stop` here because `from` is
reserved by Lean).  Error nodes carry the lezer error-node name `"⚠"`. -/

/-- A parse-tree node: lezer node-type name, source span, children in order. -/
inductive Tree where
  | mk (name : String) (start stop : Nat) (children : List Tree)

def Tree.name : Tree → String
  | .mk n _ _ _ => n

def Tree.start : Tree → Nat
  | .mk _ s _ _ => s

def Tree.stop : Tree → Nat
  | .mk _ _ e _ => e

def Tree.children : Tree → List Tree
  | .mk _ _ _ cs => cs

/-- The context of a focused node: either the top of the tree, or a hole in a
parent node `(name, span, elder siblings reversed, younger siblings, its own
context)`. -/
inductive Ctx where
  | top
  | cons (name : String) (start stop : Nat) (left : List Tree) (right : List Tree) (parent : Ctx)

/-- A `SyntaxNode`: a subtree focused inside a full parse tree. -/
structure SNode where
  t : Tree
  ctx : Ctx

def ctxDepth : Ctx → Nat
  | .top => 0
  | .cons _ _ _ _ _ p => ctxDepth p + 1

/-- `node.parent`. -/
def SNode.parent : SNode → Option SNode
  | ⟨_, .top⟩ => none
  | ⟨t, .cons nm st sp left right p⟩ => some ⟨.mk nm st sp (left.reverse ++ t :: right), p⟩

/-- `node.prevSibling`. -/
def SNode.prevSib : SNode → Option SNode
  | ⟨t, .cons nm st sp (x :: left) right p⟩ => some ⟨x, .cons nm st sp left (t :: right) p⟩
  | _ => none

/-- nodes.ts `Groups.Expr`: the node types in the `Expr` group.  Modelled from
the spec (§6): the grammar file assigning node groups belongs to the external
parser package; every expression node category listed in `Nodes` is in the
`Expr` group. -/
def exprGroup : List String :=
  ["Integer", "Float", "String", "Bool", "Nil", "VarName", "Pointer",
   "SelectorExpr", "OptionalSelectorExpr", "PointerSelectorExpr",
   "ParenthesizedExpr", "Array", "Map", "IndexExpr", "SliceExpr", "RangeExpr",
   "CallExpr", "PipeExpr", "UnaryExpr", "BinaryExpr", "ConditionalExpr",
   "Predicate", "Block"]

/-- nodes.ts `Groups.Op`: the operator node types.  Modelled from the spec
(§6), like `exprGroup`. -/
def opGroup : List String := ["ArithmeticOp", "CompareOp", "LogicOp"]

/-- The lezer `NodeType.is` / child-selector test: a selector matches a node by
exact type name or by group membership. -/
def typeIs (nodeName sel : String) : Bool :=
  nodeName == sel || (sel == "Expr" && exprGroup.contains nodeName) ||
    (sel == "Op" && opGroup.contains nodeName)

/-- Focused nodes for a child list: `left` holds the already-passed elder
siblings reversed, `rest` the remaining children. -/
def zipChildren (nm : String) (st sp : Nat) (p : Ctx) : List Tree → List Tree → List SNode
  | _, [] => []
  | left, c :: rest => ⟨c, .cons nm st sp left rest p⟩ :: zipChildren nm st sp p (c :: left) rest

/-- All children of a node, as focused nodes. -/
def SNode.childNodes (n : SNode) : List SNode :=
  zipChildren n.t.name n.t.start n.t.stop n.ctx [] n.t.children

/-- `node.getChildren(sel)`: all children matching a name or group selector. -/
def SNode.getChildren (n : SNode) (sel : String) : List SNode :=
  n.childNodes.filter (fun c => typeIs c.t.name sel)

/-- `node.getChild(sel)`: the first child matching a name or group selector. -/
def SNode.getChild (n : SNode) (sel : String) : Option SNode :=
  (n.getChildren sel).head?

/-- Climb from a focused node back to the root of its tree. -/
def SNode.root : SNode → SNode
  | ⟨t, .top⟩ => ⟨t, .top⟩
  | ⟨t, .cons nm st sp left right p⟩ => SNode.root ⟨.mk nm st sp (left.reverse ++ t :: right), p⟩
termination_by n => ctxDepth n.ctx
decreasing_by simp [ctxDepth]

mutual

/-- The pre-order node enumeration behind `syntaxTree(state).iterate` (document
order).  The `to:` bound of the `iterate` call in `getLocalScope` is subsumed
by its own `to < pos` test, so the full traversal is enumerated. -/
def allNodesT (t : Tree) (p : Ctx) : List SNode :=
  match t with
  | .mk nm st sp cs => ⟨t, p⟩ :: allNodesChildren nm st sp p [] cs
termination_by sizeOf t

/-- Pre-order enumeration of a child list. -/
def allNodesChildren (nm : String) (st sp : Nat) (p : Ctx) :
    List Tree → List Tree → List SNode
  | _, [] => []
  | left, c :: rest =>
      allNodesT c (.cons nm st sp left rest p) ++ allNodesChildren nm st sp p (c :: left) rest
termination_by _ l => sizeOf l

end

/-- The `while` loops of `getPredicateScope` that climb to the nearest
enclosing node matching a test (`while (call && call.name !== X) call =
call.parent`): the focused node itself is tested first. -/
def climbUntil (p : SNode → Bool) : Option SNode → Option SNode
  | none => none
  | some n => if p n then some n else climbUntil p n.parent
termination_by o => match o with | none => 0 | some n => ctxDepth n.ctx + 1
decreasing_by
  obtain ⟨t, c⟩ := n
  cases c <;> simp [SNode.parent, ctxDepth]

/-- The JS document slice `state.doc.sliceString(from, to)` / `state.sliceDoc`. -/
def sliceDoc (doc : String) (s e : Nat) : String :=
  String.mk ((doc.toList.drop s).take (e - s))

/-- The `@codemirror/state` `EditorState` as the resolver consumes it: the
document text, the primary-selection head (`state.selection.main.head`) and the
ambient `Scope`.  props.ts attaches one scope value to every node type
(`setScope` adds the same scope for all node types), so `getScope(node)` is a
constant per state, modelled by the `scope` field. -/
structure EState where
  doc : String
  selHead : Nat := 0
  scope : Scope

/-- props.ts `getScope`. -/
def getScope (st : EState) (_node : SNode) : Scope := st.scope

/-! ## The expression type resolver (resolver.ts `definition`, `getDefinition`,
`getLocalScope`, `toVarDeclaration`, `getPointers`, `getPredicateScope`)

These functions are mutually recursive through the tree in ways that are not
structurally decreasing (a pipe-fed call resolves its parent pipe source, a
sibling subtree; the local-scope walk resolves initializers anywhere in the
document), so the whole block is fuel-indexed: each body matches `fuel + 1`
and passes `fuel` to every (mutual) recursive call, and `.error ()` on
exhausted fuel models a JS computation that does not return (unbounded
recursion) — the same value that models a thrown `TypeError`. -/

def leftLen : Ctx → Nat
  | .top => 0
  | .cons _ _ _ l _ _ => l.length

/-- The comment walk of `toVarDeclaration`: starting from the node before the
declaration, walk backwards while the node is a line or block comment,
stripping the comment delimiters and prepending each comment line to the
description. -/
def collectComments (st : EState) : Option SNode → String → String
  | none, acc => acc
  | some n, acc =>
    if n.t.name == "LineComment" || n.t.name == "BlockComment" then
      let content := ((sliceDoc st.doc n.t.start n.t.stop).drop 2).trim
      let content := if n.t.name == "BlockComment" then (content.dropRight 2).trim else content
      collectComments st n.prevSib (content ++ "\n" ++ acc)
    else acc
termination_by o _ => match o with | none => 0 | some n => leftLen n.ctx + 1
decreasing_by
  obtain ⟨t, c⟩ := n
  rcases c with _ | ⟨nm, a, b, left, right, p⟩
  · simp [SNode.prevSib, leftLen]
  · rcases left with _ | ⟨x, l⟩ <;> simp [SNode.prevSib, leftLen]

/-- The textual-match unwrap tail of the `ConditionalExpr` case: `src` is the
non-nil comparison operand, `r` the branch paired with the operator (`!= nil`
pairs with the true branch, `== nil` with the false branch); the optional item
type is produced when the source texts match and `isEquals(t.item, f)`.
An undefined `src` or `r` node would make JS throw reading `.from`. -/
def condUnwrap (st : EState) (operand : String) (truth falsehood src : Option SNode)
    (titem f : Definition) : Except Unit Definition :=
  let r := if operand == "!=" then truth else falsehood
  match src, r with
  | none, _ => .error ()
  | _, none => .error ()
  | some sn, some rn =>
    if sliceDoc st.doc sn.t.start sn.t.stop == sliceDoc st.doc rn.t.start rn.t.stop
        && isEquals titem f
    then .ok titem else .ok .any

/-- An `ArgumentDefinition` exposed as a scope entry by `getPredicateScope`. -/
def argToVar (a : ArgumentDefinition) : VariableDefinition := ⟨a.name, "", a.type⟩

/-- The `#acc` rebinding trick at the end of `getPredicateScope`: if the
accumulator parameter is still unresolved (`any`) after substitution, rebind it
to the `#` element parameter, so `reduce` without an initial value still offers
a usable accumulator type. -/
def accTrick (scope : Rec VariableDefinition) : Rec VariableDefinition :=
  match jsLookup scope "#acc" with
  | some accV =>
    if accV.type.kind == .any then
      match jsLookup scope "#" with
      | some p => scope ++ [("#acc", p)]
      | none => scope
    else scope
  | none => scope

mutual

/-- resolver.ts `definition`: the central per-node-kind type inference.  `.ok
.jsNull` is a returned JS `null` (a failed selector member lookup);
`.error ()` is a JS computation that throws or never returns. -/
def definitionF : Nat → EState → SNode → Except Unit Definition
  | 0, _, _ => .error ()
  | fuel + 1, st, node =>
    if node.t.name == "" then .ok .any
    else
      match node.t.name with
      | "Integer" => .ok .int
      | "Float" => .ok .float
      | "String" => .ok .string
      | "Bool" => .ok .bool
      | "Nil" => .ok .nil
      | "RangeExpr" => .ok (.slice .int)
      | "VarName" =>
        let name := sliceDoc st.doc node.t.start node.t.stop
        match jsLookup (getScope st node).vars name with
        | some vd => .ok vd.type
        | none =>
          match getLocalScopeF fuel st node none with
          | .error e => .error e
          | .ok locals =>
            match jsLookup locals name with
            | some vd => .ok vd.type
            | none => .ok .any
      | "SelectorExpr" | "OptionalSelectorExpr" =>
        match getDefinitionF fuel st (node.getChild "Expr") with
        | .error e => .error e
        | .ok source =>
          match node.getChild "FieldName" with
          | some field =>
            match getMemberF fuel (getScope st node) ⟨source, none⟩
                (sliceDoc st.doc field.t.start field.t.stop) with
            | .error e => .error e
            | .ok (some m) => .ok m
            | .ok none => .ok .jsNull
          | none => .ok .any
      | "PointerSelectorExpr" =>
        match getPointersGo fuel st node node with
        | .error e => .error e
        | .ok pointers =>
          if !(jsMem pointers "#") then .ok .any
          else
            let source := ((jsLookup pointers "#").map VariableDefinition.type).getD .jsNull
            match node.getChild "FieldName" with
            | some field =>
              match getMemberF fuel (getScope st node) ⟨source, none⟩
                  (sliceDoc st.doc field.t.start field.t.stop) with
              | .error e => .error e
              | .ok (some m) => .ok m
              | .ok none => .ok .jsNull
            | none => .ok .any
      | "Pointer" =>
        let name := sliceDoc st.doc node.t.start node.t.stop
        match getPointersGo fuel st node node with
        | .error e => .error e
        | .ok pointers =>
          match jsLookup pointers name with
          | some vd => .ok vd.type
          | none => .ok .any
      | "ParenthesizedExpr" | "UnaryExpr" | "Block" | "Predicate" | "PipeExpr" =>
        getDefinitionF fuel st (node.getChildren "Expr").getLast?
      | "Array" =>
        match defineAll fuel st ((node.getChildren "Expr").map some) with
        | .error e => .error e
        | .ok [] => .ok (.slice .any)
        | .ok (c0 :: rest) =>
          if rest.all (fun c => isEquals c0 c) then .ok (.slice c0) else .ok (.slice .any)
      | "Map" =>
        match defineAll fuel st
            ((node.getChildren "Pair").map (fun p => (p.getChildren "Expr")[1]?)) with
        | .error e => .error e
        | .ok [] => .ok (.map .string .any)
        | .ok (v0 :: rest) =>
          if rest.all (fun v => isEquals v0 v) then .ok (.map .string v0)
          else .ok (.map .string .any)
      | "IndexExpr" =>
        match getDefinitionF fuel st (node.getChild "Expr") with
        | .error e => .error e
        | .ok .jsNull => .error ()
        | .ok (.array _ it) => .ok it
        | .ok (.slice it) => .ok it
        | .ok (.map _ v) => .ok v
        | .ok _ => .ok .any
      | "SliceExpr" =>
        match getDefinitionF fuel st (node.getChild "Expr") with
        | .error e => .error e
        | .ok .jsNull => .error ()
        | .ok (.array _ it) => .ok (.slice it)
        | .ok (.slice it) => .ok (.slice it)
        | .ok _ => .ok .any
      | "CallExpr" =>
        let callable := node.getChild "Expr"
        match getDefinitionF fuel st callable with
        | .error e => .error e
        | .ok .jsNull => .error ()
        | .ok (.func gs fargs frets) =>
          match node.getChild "Arguments" with
          | none => .error ()
          | some argsN =>
            let args0 := (argsN.getChildren "Expr").map some
            let args :=
              match node.parent with
              | some par =>
                if typeIs par.t.name "PipeExpr" && node.prevSib.isSome
                then par.getChild "Expr" :: args0 else args0
              | none => args0
            match defineAll fuel st args with
            | .error e => .error e
            | .ok argsDef =>
              match callable with
              | none => .error ()
              | some c =>
                match resolveFuncGenerics (.func gs fargs frets) argsDef
                    (sliceDoc st.doc c.t.start c.t.stop) with
                | .error e => .error e
                | .ok (.func _ _ (r0 :: _)) => .ok r0
                | .ok _ => .ok .any
        | .ok _ => .ok .any
      | "BinaryExpr" =>
        match node.getChild "Op" with
        | none => .error ()
        | some op =>
          if op.t.name == "CompareOp" || op.t.name == "LogicOp" then .ok .bool
          else
            let es := node.getChildren "Expr"
            match getDefinitionF fuel st es[0]? with
            | .error e => .error e
            | .ok r =>
              match getDefinitionF fuel st es[1]? with
              | .error e => .error e
              | .ok l =>
                if r.kind == .jsNull then .error ()
                else if isNumber r then
                  if l.kind == .jsNull then .error ()
                  else if isNumber l then .ok .float
                  else if isEquals r l then .ok r else .ok .any
                else if isEquals r l then .ok r else .ok .any
      | "ConditionalExpr" =>
        let es := node.getChildren "Expr"
        match getDefinitionF fuel st es[1]? with
        | .error e => .error e
        | .ok t =>
          match getDefinitionF fuel st es[2]? with
          | .error e => .error e
          | .ok f =>
            if isEquals t f then .ok t
            else if t.kind == .jsNull then .error ()
            else
              match t with
              | .optional titem =>
                match es[0]? with
                | none => .error ()
                | some cond =>
                  if !(typeIs cond.t.name "BinaryExpr") then .ok .any
                  else
                    match cond.getChild "Op" with
                    | none => .error ()
                    | some op =>
                      if op.t.name != "CompareOp" then .ok .any
                      else
                        let operand := sliceDoc st.doc op.t.start op.t.stop
                        if operand != "==" && operand != "!=" then .ok .any
                        else
                          let ces := cond.getChildren "Expr"
                          match ces[0]? with
                          | none => .error ()
                          | some right =>
                            if typeIs right.t.name "Nil" then
                              condUnwrap st operand es[1]? es[2]? ces[1]? titem f
                            else
                              match ces[1]? with
                              | none => .error ()
                              | some left =>
                                if typeIs left.t.name "Nil" then
                                  condUnwrap st operand es[1]? es[2]? (some right) titem f
                                else .ok .any
              | _ => .ok .any
      | _ => .ok .any

/-- resolver.ts `getDefinition`: `null` nodes resolve to `any`; the
`NodeWeakMap` cache only memoizes the pure `definition` and is transparent
here. -/
def getDefinitionF : Nat → EState → Option SNode → Except Unit Definition
  | 0, _, _ => .error ()
  | _ + 1, _, none => .ok .any
  | fuel + 1, st, some n => definitionF fuel st n

/-- The eager `args.map(arg => getDefinition(state, arg))` of the `CallExpr`
case (and the literal cases): an exception aborts the whole map. -/
def defineAll : Nat → EState → List (Option SNode) → Except Unit (List Definition)
  | 0, _, _ => .error ()
  | _ + 1, _, [] => .ok []
  | fuel + 1, st, a :: rest =>
    match getDefinitionF fuel st a with
    | .error e => .error e
    | .ok d =>
      match defineAll fuel st rest with
      | .error e => .error e
      | .ok ds => .ok (d :: ds)

/-- The `args.map((a, idx) => idx !== pos ? getDefinition(state, a) : any)` of
`getPredicateScope`, which masks the predicate argument itself. -/
def defineAllExcept : Nat → EState → Nat → Nat → List (Option SNode) → Except Unit (List Definition)
  | 0, _, _, _, _ => .error ()
  | _ + 1, _, _, _, [] => .ok []
  | fuel + 1, st, pos, idx, a :: rest =>
    match (if idx != pos then getDefinitionF fuel st a else .ok .any) with
    | .error e => .error e
    | .ok d =>
      match defineAllExcept fuel st pos (idx + 1) rest with
      | .error e => .error e
      | .ok ds => .ok (d :: ds)

/-- resolver.ts `getLocalScope`: the implicit-parameter scope as the base, then
a document-order walk over every `VarDecl` ending strictly before `pos`
(default: the start of `target`). -/
def getLocalScopeF : Nat → EState → SNode → Option Nat → Except Unit (Rec VariableDefinition)
  | 0, _, _, _ => .error ()
  | fuel + 1, st, target, pos =>
    match getPointersGo fuel st target target with
    | .error e => .error e
    | .ok init =>
      localScopeFold fuel st (pos.getD target.t.start) (allNodesT target.root.t .top) init

/-- The `iterate` body of `getLocalScope`: each well-formed declaration is
merged as `{[def.name]: def, ...scope}` — the existing scope entries are
spread last and therefore win, so an earlier binding for the same name is kept. -/
def localScopeFold : Nat → EState → Nat → List SNode → Rec VariableDefinition →
    Except Unit (Rec VariableDefinition)
  | 0, _, _, _, _ => .error ()
  | _ + 1, _, _, [], sc => .ok sc
  | fuel + 1, st, bound, n :: rest, sc =>
    if n.t.name == "VarDecl" && n.t.stop < bound then
      match toVarDeclarationF fuel st n with
      | .error e => .error e
      | .ok (some vd) => localScopeFold fuel st bound rest ([(vd.name, vd)] ++ sc)
      | .ok none => localScopeFold fuel st bound rest sc
    else localScopeFold fuel st bound rest sc

/-- resolver.ts `toVarDeclaration`: `none` for error nodes and declarations
without a `DefName`; otherwise the resolved initializer type with the declared
name and the description collected from the preceding comment run.  A
declaration with neither a previous sibling nor a parent would make JS throw
(`varDecl.parent.prevSibling` on `null`). -/
def toVarDeclarationF : Nat → EState → SNode → Except Unit (Option VariableDefinition)
  | 0, _, _ => .error ()
  | fuel + 1, st, varDecl =>
    if varDecl.t.name == "⚠" then .ok none
    else
      match varDecl.getChild "DefName" with
      | none => .ok none
      | some nameN =>
        match getDefinitionF fuel st (varDecl.getChild "Expr") with
        | .error e => .error e
        | .ok d =>
          let startR : Except Unit (Option SNode) :=
            match varDecl.prevSib with
            | some sib => .ok (some sib)
            | none =>
              match varDecl.parent with
              | some par => .ok par.prevSib
              | none => .error ()
          match startR with
          | .error e => .error e
          | .ok start =>
            .ok (some ⟨sliceDoc st.doc nameN.t.start nameN.t.stop,
                       collectComments st start "", d⟩)

/-- resolver.ts `getPointers` (the `for (cur = node, prev = node; cur; ...)`
loop): climbing the ancestor chain, on each `Arguments` node compute the
predicate scope of the child just crossed and return it if it binds `#`. -/
def getPointersGo : Nat → EState → SNode → SNode → Except Unit (Rec VariableDefinition)
  | 0, _, _, _ => .error ()
  | fuel + 1, st, cur, prev =>
    if cur.t.name == "Arguments" then
      match getPredicateScopeF fuel st prev with
      | .error e => .error e
      | .ok sc =>
        if jsMem sc "#" then .ok sc
        else
          match cur.parent with
          | some p => getPointersGo fuel st p cur
          | none => .ok []
    else
      match cur.parent with
      | some p => getPointersGo fuel st p cur
      | none => .ok []

/-- resolver.ts `getPredicateScope`: locate the enclosing call of a predicate
builtin, find the parameter position implied by the node (or by the selection
head when the node is the argument list or a comma), infer the concrete
predicate signature by resolving generics over the sibling arguments (the
predicate argument itself masked as `any`), and expose its parameters as a
scope; `#acc` falls back to the `#` type (`accTrick`).  The `if (!args)`
test in the source is dead code (a JS array is always truthy) and has no
counterpart here. -/
def getPredicateScopeF : Nat → EState → SNode → Except Unit (Rec VariableDefinition)
  | 0, _, _ => .error ()
  | fuel + 1, st, node =>
    if node.parent.isNone then .ok []
    else if typeIs node.t.name ")" then .ok []
    else
      match climbUntil (fun s => s.t.name == "CallExpr")
          (climbUntil (fun s => s.t.name == "Arguments") (some node)) with
      | none => .ok []
      | some call =>
        match call.getChild "Expr" with
        | none => .ok []
        | some varName =>
          let name := sliceDoc st.doc varName.t.start varName.t.stop
          if !isPredicativeFunc name then .ok []
          else
            match (jsLookup builtIn.vars name).map VariableDefinition.type with
            | some (.func gs fargs frets) =>
              let ap : List (Option SNode) × Nat :=
                match call.parent with
                | some p =>
                  if p.t.name == "PipeExpr" && call.prevSib.isSome then ([p.getChild "Expr"], 1)
                  else ([], 0)
                | none => ([], 0)
              match call.getChild "Arguments" with
              | none => .ok []
              | some argsNode =>
                let args := ap.1 ++ (argsNode.getChildren "Expr").map some
                let cursor :=
                  if typeIs node.t.name "Arguments" || typeIs node.t.name "," then st.selHead
                  else node.t.start
                let pos := ap.2 +
                  ((argsNode.getChildren ",").filter (fun c => c.t.stop ≤ cursor)).length
                if pos ≥ fargs.length then .ok []
                else
                  match fargs[pos]? with
                  | none => .ok []
                  | some parg =>
                    if parg.type.kind != .funcT then .ok []
                    else
                      match defineAllExcept fuel st pos 0 args with
                      | .error e => .error e
                      | .ok definitions =>
                        match resolveFuncGenerics (.func gs fargs frets) definitions name with
                        | .error e => .error e
                        | .ok (.func _ pfargs _) =>
                          match (pfargs[pos]?).map ArgumentDefinition.type with
                          | some (.func _ predArgs _) =>
                            .ok (accTrick (predArgs.foldl
                              (fun acc a => acc ++ [(a.name, argToVar a)])
                              ([] : Rec VariableDefinition)))
                          | _ => .error ()
                        | .ok _ => .error ()
            | some _ => .ok []
            | none => .ok []

end

/-- resolver.ts `getPointers`: the loop starts with `cur = prev = node`. -/
def getPointersF (fuel : Nat) (st : EState) (node : SNode) : Except Unit (Rec VariableDefinition) :=
  getPointersGo fuel st node node

/-! ## Specification helpers

Reformulations of pieces of the embedding used to state properties; each is a
definitional rearrangement of the function it mirrors, related to it by a
proved lemma below. -/

/-- The first `some` in a list of options. -/
def firstSome : List (Option α) → Option α
  | [] => none
  | o :: t => match o with | some v => some v | none => firstSome t

/-- The well-formed declarations that the `getLocalScope` walk accepts, in
document order, with the same fuel discipline as `localScopeFold` (to which it
is related by `localScopeFold_eq_declList`). -/
def declListF : Nat → EState → Nat → List SNode → Except Unit (List VariableDefinition)
  | 0, _, _, _ => .error ()
  | _ + 1, _, _, [] => .ok []
  | fuel + 1, st, bound, n :: rest =>
    if n.t.name == "VarDecl" && n.t.stop < bound then
      match toVarDeclarationF fuel st n with
      | .error e => .error e
      | .ok (some vd) =>
        match declListF fuel st bound rest with
        | .error e => .error e
        | .ok ds => .ok (vd :: ds)
      | .ok none => declListF fuel st bound rest
    else declListF fuel st bound rest

/-! ## Concrete programs used by the claims

Each scenario fixes a document, its parse tree and an ambient scope. -/

/-- A scope declaring `v: struct{}` (no fields, no methods). -/
def selScope : Scope := ⟨[("v", ⟨"v", "", .struct []⟩)], []⟩

/-- Editor state for the document `v.bad.x`. -/
def selState : EState := ⟨"v.bad.x", 0, selScope⟩

/-- The subtree for `v.bad`. -/
def selInnerTree : Tree := .mk "SelectorExpr" 0 5 [.mk "VarName" 0 1 [], .mk "FieldName" 2 5 []]

/-- The tree for `v.bad.x`. -/
def selTree : Tree := .mk "SelectorExpr" 0 7 [selInnerTree, .mk "FieldName" 6 7 []]

/-- The node `v.bad` focused inside `v.bad.x`. -/
def selInnerNode : SNode :=
  ⟨selInnerTree, .cons "SelectorExpr" 0 7 [] [.mk "FieldName" 6 7 []] .top⟩

/-- A scope declaring `x: optional<int>`. -/
def condScope : Scope := ⟨[("x", ⟨"x", "", .optional .int⟩)], []⟩

/-- Editor state for the document `x == nil ? 0 : x`. -/
def eqNilState : EState := ⟨"x == nil ? 0 : x", 0, condScope⟩

/-- The tree for `x == nil ? 0 : x` (spans: `x` 0-1, `==` 2-4, `nil` 5-8,
`0` 11-12, `x` 15-16). -/
def eqNilTree : Tree :=
  .mk "ConditionalExpr" 0 16
    [.mk "BinaryExpr" 0 8 [.mk "VarName" 0 1 [], .mk "CompareOp" 2 4 [], .mk "Nil" 5 8 []],
     .mk "Integer" 11 12 [], .mk "VarName" 15 16 []]

/-- Editor state for the document `x != nil ? x : 0`. -/
def neNilState : EState := ⟨"x != nil ? x : 0", 0, condScope⟩

/-- The tree for `x != nil ? x : 0`. -/
def neNilTree : Tree :=
  .mk "ConditionalExpr" 0 16
    [.mk "BinaryExpr" 0 8 [.mk "VarName" 0 1 [], .mk "CompareOp" 2 4 [], .mk "Nil" 5 8 []],
     .mk "VarName" 11 12 [], .mk "Integer" 15 16 []]

/-- The document of the pipe form, `arr | filter(# > 2)`. -/
def pipeDoc : String := "arr | filter(# > 2)"

/-- The document of the direct-call form, `filter(arr, # > 2)`. -/
def callDoc : String := "filter(arr, # > 2)"

/-- The predicate `# > 2` inside the pipe form (spans 13-18). -/
def pipePredTree : Tree :=
  .mk "BinaryExpr" 13 18 [.mk "Pointer" 13 14 [], .mk "CompareOp" 15 16 [], .mk "Integer" 17 18 []]

/-- The call `filter(# > 2)` inside the pipe form (spans 6-19). -/
def pipeCallTree : Tree :=
  .mk "CallExpr" 6 19 [.mk "VarName" 6 12 [], .mk "Arguments" 12 19 [pipePredTree]]

/-- The tree for `arr | filter(# > 2)`. -/
def pipeTree : Tree := .mk "PipeExpr" 0 19 [.mk "VarName" 0 3 [], pipeCallTree]

/-- The argument `arr` of the direct-call form (spans 7-10). -/
def callArrTree : Tree := .mk "VarName" 7 10 []

/-- The predicate `# > 2` of the direct-call form (spans 12-17). -/
def callPredTree : Tree :=
  .mk "BinaryExpr" 12 17 [.mk "Pointer" 12 13 [], .mk "CompareOp" 14 15 [], .mk "Integer" 16 17 []]

/-- The tree for `filter(arr, # > 2)`. -/
def callTree : Tree :=
  .mk "CallExpr" 0 18
    [.mk "VarName" 0 6 [],
     .mk "Arguments" 6 18 [callArrTree, .mk "," 10 11 [], callPredTree]]

/-- The variable registry for the pipe-equivalence scenario: an arbitrary host
scope `rest` under which `filter` is the builtin and `arr: slice<int>`. -/
def c5Vars (rest : Rec VariableDefinition) : Rec VariableDefinition :=
  rest ++ [("filter", ⟨"filter", "", filterBuiltin⟩), ("arr", ⟨"arr", "", .slice .int⟩)]

/-- Editor state for the pipe form over an arbitrary host scope. -/
def pipeState (rest : Rec VariableDefinition) (tys : Rec DefObj) : EState :=
  ⟨pipeDoc, 0, ⟨c5Vars rest, tys⟩⟩

/-- Editor state for the direct-call form over an arbitrary host scope. -/
def callState (rest : Rec VariableDefinition) (tys : Rec DefObj) : EState :=
  ⟨callDoc, 0, ⟨c5Vars rest, tys⟩⟩

/-- A registry declaring `B = struct { X: pX }`. -/
def embedScope (pX : Definition) : Scope :=
  ⟨[], [("B", ⟨.struct [.mk "X" pX false], none⟩)]⟩

/-- The struct `A { e: B (embedded); X: dX }` whose embedded field promotes a
member named `X` that collides with the direct field `X`. -/
def structA (dX : Definition) : Definition :=
  .struct [.mk "e" (.defined "B") true, .mk "X" dX false]

/-- The first declaration `let a = 1` (spans 0-9) of the shadowing document. -/
def letVarDecl1 : Tree := .mk "VarDecl" 0 9 [.mk "DefName" 4 5 [], .mk "Integer" 8 9 []]

/-- The second declaration `let a = "s"` (spans 11-22). -/
def letVarDecl2 : Tree := .mk "VarDecl" 11 22 [.mk "DefName" 15 16 [], .mk "String" 19 22 []]

/-- The root of the shadowing document `let a = 1; let a = "s"; a`. -/
def letRoot : Tree := .mk "Script" 0 25 [letVarDecl1, letVarDecl2, .mk "VarName" 24 25 []]

/-- The shadowing document. -/
def letDoc : String := "let a = 1; let a = \"s\"; a"

/-- Editor state for the shadowing document (empty ambient scope, so local
declarations decide the lookup). -/
def letState : EState := ⟨letDoc, 0, ⟨[], []⟩⟩

/-- The trailing `a` (span 24-25) focused in the shadowing document. -/
def letTarget : SNode :=
  ⟨.mk "VarName" 24 25 [], .cons "Script" 0 25 [letVarDecl2, letVarDecl1] [] .top⟩

/-- The earlier declaration, `let a = 1`, as a variable definition. -/
def letIntDef : VariableDefinition := ⟨"a", "", .int⟩

/-- The later declaration, `let a = "s"`, as a variable definition. -/
def letStrDef : VariableDefinition := ⟨"a", "", .string⟩

/-- The pre-order node enumeration of the shadowing document, with every tree
and context written out (the form produced by `allNodesT` on `letRoot`). -/
def letNodes : List SNode :=
  [⟨Tree.mk "Script" 0 25
      [Tree.mk "VarDecl" 0 9 [Tree.mk "DefName" 4 5 [], Tree.mk "Integer" 8 9 []],
       Tree.mk "VarDecl" 11 22 [Tree.mk "DefName" 15 16 [], Tree.mk "String" 19 22 []],
       Tree.mk "VarName" 24 25 []], Ctx.top⟩,
   ⟨Tree.mk "VarDecl" 0 9 [Tree.mk "DefName" 4 5 [], Tree.mk "Integer" 8 9 []],
    Ctx.cons "Script" 0 25 []
      [Tree.mk "VarDecl" 11 22 [Tree.mk "DefName" 15 16 [], Tree.mk "String" 19 22 []],
       Tree.mk "VarName" 24 25 []] Ctx.top⟩,
   ⟨Tree.mk "DefName" 4 5 [],
    Ctx.cons "VarDecl" 0 9 [] [Tree.mk "Integer" 8 9 []]
      (Ctx.cons "Script" 0 25 []
        [Tree.mk "VarDecl" 11 22 [Tree.mk "DefName" 15 16 [], Tree.mk "String" 19 22 []],
         Tree.mk "VarName" 24 25 []] Ctx.top)⟩,
   ⟨Tree.mk "Integer" 8 9 [],
    Ctx.cons "VarDecl" 0 9 [Tree.mk "DefName" 4 5 []] []
      (Ctx.cons "Script" 0 25 []
        [Tree.mk "VarDecl" 11 22 [Tree.mk "DefName" 15 16 [], Tree.mk "String" 19 22 []],
         Tree.mk "VarName" 24 25 []] Ctx.top)⟩,
   ⟨Tree.mk "VarDecl" 11 22 [Tree.mk "DefName" 15 16 [], Tree.mk "String" 19 22 []],
    Ctx.cons "Script" 0 25
      [Tree.mk "VarDecl" 0 9 [Tree.mk "DefName" 4 5 [], Tree.mk "Integer" 8 9 []]]
      [Tree.mk "VarName" 24 25 []] Ctx.top⟩,
   ⟨Tree.mk "DefName" 15 16 [],
    Ctx.cons "VarDecl" 11 22 [] [Tree.mk "String" 19 22 []]
      (Ctx.cons "Script" 0 25
        [Tree.mk "VarDecl" 0 9 [Tree.mk "DefName" 4 5 [], Tree.mk "Integer" 8 9 []]]
        [Tree.mk "VarName" 24 25 []] Ctx.top)⟩,
   ⟨Tree.mk "String" 19 22 [],
    Ctx.cons "VarDecl" 11 22 [Tree.mk "DefName" 15 16 []] []
      (Ctx.cons "Script" 0 25
        [Tree.mk "VarDecl" 0 9 [Tree.mk "DefName" 4 5 [], Tree.mk "Integer" 8 9 []]]
        [Tree.mk "VarName" 24 25 []] Ctx.top)⟩,
   ⟨Tree.mk "VarName" 24 25 [],
    Ctx.cons "Script" 0 25
      [Tree.mk "VarDecl" 11 22 [Tree.mk "DefName" 15 16 [], Tree.mk "String" 19 22 []],
       Tree.mk "VarDecl" 0 9 [Tree.mk "DefName" 4 5 [], Tree.mk "Integer" 8 9 []]] []
      Ctx.top⟩]

/-- A self-referential registry: `type T = T`. -/
def cycScope : Scope := ⟨[], [("T", ⟨.defined "T", none⟩)]⟩

/-- A registry with a self-embedding struct: `S = struct { e: S (embedded) }`. -/
def embCycScope : Scope := ⟨[], [("S", ⟨.struct [.mk "e" (.defined "S") true], none⟩)]⟩

/-- The self-embedding struct source object for the divergence scenario. -/
def embCycObj : DefObj := ⟨.struct [.mk "e" (.defined "S") true], none⟩

/-- A scope declaring `u` and `v` of kind `uint`. -/
def uScope : Scope := ⟨[("u", ⟨"u", "", .uint⟩), ("v", ⟨"v", "", .uint⟩)], []⟩

/-- Editor state for the document `u + v`. -/
def uState : EState := ⟨"u + v", 0, uScope⟩

/-- The tree for `u + v`. -/
def uTree : Tree :=
  .mk "BinaryExpr" 0 5 [.mk "VarName" 0 1 [], .mk "ArithmeticOp" 2 3 [], .mk "VarName" 4 5 []]

/-- The `CallExpr` arm of `definitionF`, isolated verbatim so that call-site
proofs can work with just this branch instead of the whole case analysis. -/
def callExprStep (fuel : Nat) (st : EState) (node : SNode) : Except Unit Definition :=
  let callable := node.getChild "Expr"
  match getDefinitionF fuel st callable with
  | .error e => .error e
  | .ok .jsNull => .error ()
  | .ok (.func gs fargs frets) =>
    match node.getChild "Arguments" with
    | none => .error ()
    | some argsN =>
      let args0 := (argsN.getChildren "Expr").map some
      let args :=
        match node.parent with
        | some par =>
          if typeIs par.t.name "PipeExpr" && node.prevSib.isSome
          then par.getChild "Expr" :: args0 else args0
        | none => args0
      match defineAll fuel st args with
      | .error e => .error e
      | .ok argsDef =>
        match callable with
        | none => .error ()
        | some c =>
          match resolveFuncGenerics (.func gs fargs frets) argsDef
              (sliceDoc st.doc c.t.start c.t.stop) with
          | .error e => .error e
          | .ok (.func _ _ (r0 :: _)) => .ok r0
          | .ok _ => .ok .any
  | .ok _ => .ok .any

/-! ## General lemmas about JS records and the binding loop -/

theorem jsLookup_append (a b : Rec V) (k : String) :
    jsLookup (a ++ b) k = match jsLookup b k with | some v => some v | none => jsLookup a k := by
  induction a with
  | nil => simp [jsLookup]; cases jsLookup b k <;> simp
  | cons x t ih =>
    simp [jsLookup, ih]
    cases jsLookup b k <;> cases jsLookup t k <;> simp [jsLookup]

theorem jsMem_of_lookup (r : Rec V) (k : String) (v : V) (h : jsLookup r k = some v) :
    jsMem r k = true := by
  induction r with
  | nil => simp [jsLookup] at h
  | cons x t ih =>
    simp only [jsLookup] at h
    simp only [jsMem, List.any_cons, Bool.or_eq_true]
    cases ht : jsLookup t k with
    | some w =>
      rw [ht] at h
      simp at h
      subst h
      exact Or.inr (by simpa [jsMem] using ih ht)
    | none =>
      rw [ht] at h
      by_cases hk : (x.1 == k) = true
      · exact Or.inl hk
      · simp [hk] at h

theorem firstSome_of_get (l : List (Option α)) (i : Nat) (v : α)
    (hi : l[i]? = some (some v)) (hbef : ∀ k, k < i → l[k]? = some none) :
    firstSome l = some v := by
  induction l generalizing i with
  | nil => simp at hi
  | cons o t ih =>
    cases i with
    | zero => simp at hi; simp [firstSome, hi]
    | succ i =>
      have h0 := hbef 0 (Nat.succ_pos i)
      simp at h0 hi
      simp [firstSome, h0]
      exact ih i hi (fun k hk => by
        have := hbef (k + 1) (Nat.succ_lt_succ hk)
        simpa using this)

theorem genericsGo_append (fargs : List ArgumentDefinition) (pred : Bool)
    (args : List Definition) (i : Nat) (acc : Rec Definition) :
    genericsGo fargs pred args i acc =
      (genericsGo fargs pred args i []).map (fun r => r ++ acc) := by
  induction args generalizing i acc with
  | nil => simp [genericsGo, Except.map]
  | cons actual rest ih =>
    simp only [genericsGo]
    cases h : fargs[if i < fargs.length then i else fargs.length - 1]? with
    | none => simp [Except.map]
    | some exp =>
      by_cases hbrk :
          ((if i < fargs.length then i else fargs.length - 1) != i && !exp.variadic) = true
      · simp [hbrk, Except.map]
      · simp only [hbrk, if_false, Bool.false_eq_true]
        rw [ih (i + 1) (collectGenerics (stepExpected pred exp) actual ++ acc),
            ih (i + 1) (collectGenerics (stepExpected pred exp) actual ++ [])]
        cases genericsGo fargs pred rest (i + 1) [] <;> simp [Except.map, List.append_assoc]

theorem genericsGo_lookup (fargs : List ArgumentDefinition) (pred : Bool)
    (args : List Definition) (i : Nat) (r : Rec Definition) (g : String)
    (h : genericsGo fargs pred args i [] = .ok r) :
    jsLookup r g = firstSome ((collectedAt fargs pred args i).map (fun c => jsLookup c g)) := by
  induction args generalizing i r with
  | nil =>
    simp [genericsGo] at h
    subst h
    simp [collectedAt, firstSome, jsLookup]
  | cons actual rest ih =>
    simp only [genericsGo, collectedAt] at h ⊢
    cases hf : fargs[if i < fargs.length then i else fargs.length - 1]? with
    | none => simp [hf] at h
    | some exp =>
      simp only [hf] at h ⊢
      by_cases hbrk :
          ((if i < fargs.length then i else fargs.length - 1) != i && !exp.variadic) = true
      · simp [hbrk] at h ⊢
        subst h
        simp [jsLookup, firstSome]
      · simp only [hbrk, if_false, Bool.false_eq_true] at h ⊢
        rw [genericsGo_append] at h
        cases hrest : genericsGo fargs pred rest (i + 1) [] with
        | error e => rw [hrest] at h; simp [Except.map] at h
        | ok r2 =>
          rw [hrest] at h
          simp [Except.map] at h
          rw [← h, jsLookup_append, ih _ _ hrest]
          simp only [List.map_cons, firstSome]
          cases jsLookup (collectGenerics (stepExpected pred exp) actual) g <;> simp [firstSome]

theorem constraintStep_keeps (r : Rec Definition) (gc : String × List Definition)
    (g : String) (v : Definition) (hv : jsLookup r g = some v)
    (hok : gc.1 = g → gc.2.any (fun t => isUnknownType t || isEquals v t) = true) :
    jsLookup (constraintStep r gc) g = some v := by
  by_cases hg : gc.1 = g
  · subst hg
    simp only [constraintStep, jsMem_of_lookup r gc.1 v hv, if_true, hv, Option.getD_some,
      hok rfl]
  · have hne : (gc.1 == g) = false := by simp [hg]
    have hskip : ∀ (r2 : Rec Definition) (w : Definition), jsLookup r2 g = some v →
        jsLookup (r2 ++ [(gc.1, w)]) g = some v := by
      intro r2 w h2
      rw [jsLookup_append]
      simp [jsLookup, hne, h2]
    simp only [constraintStep]
    by_cases hmem : jsMem r gc.1 = true <;>
      simp only [hmem, if_true, if_false, Bool.false_eq_true] <;>
      split <;> simp [jsLookup_append, jsLookup, hne, hv]

theorem constraintFold_keeps (gs : List (String × List Definition)) (r : Rec Definition)
    (g : String) (v : Definition) (hv : jsLookup r g = some v)
    (hok : ∀ cs, (g, cs) ∈ gs → cs.any (fun t => isUnknownType t || isEquals v t) = true) :
    jsLookup (constraintFold gs r) g = some v := by
  induction gs generalizing r with
  | nil => simpa [constraintFold] using hv
  | cons gc gst ih =>
    have hstep : constraintFold (gc :: gst) r = constraintFold gst (constraintStep r gc) := rfl
    rw [hstep]
    refine ih (constraintStep r gc) ?_ ?_
    · exact constraintStep_keeps r gc g v hv (fun hg => hok gc.2 (by
        cases gc
        simp_all))
    · intro cs hcs
      exact hok cs (List.mem_cons_of_mem _ hcs)

/-! ## C1: generic unification for the builtin `map` -/

/-- C1: calling the builtin `map` with an array argument of type `slice<int>`
and a predicate whose resolved type is `bool` yields, as the first return of
`resolveFuncGenerics` on the effective arguments, the type `slice<bool>`:
`T` is bound to `int` from the array argument, `R` to `bool` via the
predicate-return substitution, and both are substituted into the declared
signature (the declared return `slice<R>` becomes `slice<bool>`). -/
theorem map_slice_int_bool_resolves_slice_bool :
    resolveFuncGenerics mapBuiltin [.slice .int, .bool] "map" =
      .ok (.func none
        [.mk "array" (.slice .int) true false,
         .mk "predicate"
           (.func none [.mk "#index" .int true false, .mk "#" .int true false] [.bool])
           true false]
        [.slice .bool]) := by
  simp [resolveFuncGenerics, genericsGo, stepExpected, collectGenerics, constraintFold,
    constraintStep, List.foldl_cons, List.foldl_nil, patchGenerics, patchGenericsArgs,
    patchGenericsList, mapBuiltin, arrayParam, sliceT, isPredicativeFunc, Definition.kind,
    jsLookup, jsMem, isUnknownType, ArgumentDefinition.type, ArgumentDefinition.variadic,
    Bind.bind, Except.bind]

/-! ## C2: the resolver is not total — a failed member lookup returns null and
a nested selector then throws -/

/-- C2 (refuting the claim): in `v.bad.x` with `v: struct{}`, the member
lookup for `bad` fails, so `definition` returns the JS `null` for the inner
selector `v.bad` — not a `Definition` — and resolving the outer selector
`v.bad.x` dereferences that null inside `getMember` (`src.type` on `null`) and
throws a `TypeError` instead of resolving to `any`. -/
theorem selector_null_escape_and_crash :
    definitionF 20 selState selInnerNode = .ok .jsNull ∧
      definitionF 20 selState ⟨selTree, .top⟩ = .error () :=
  ⟨rfl, rfl⟩

/-! ## C3: earliest-argument-wins generic binding -/

/-- C3: in `resolveFuncGenerics`, when two different argument positions `i < j`
both produce a binding for the same generic variable `g` (and no position
before `i` does), the binding `v` from the earlier position `i` is the one
present in the final substitution record — the later binding `w` never
overrides it, no error is raised for the conflict, and `resolveFuncGenerics`
substitutes exactly that record into the signature (the constraint check keeps
`v` whenever `v` is unknown-excused or equal to a declared constraint). -/
theorem generic_binding_earliest_argument_wins
    (fargs : List ArgumentDefinition) (name : String) (args : List Definition)
    (gs : List (String × List Definition)) (frets : List Definition)
    (r ci cj : Rec Definition) (g : String) (v w : Definition) (i j : Nat)
    (hrun : genericsGo fargs (isPredicativeFunc name) args 0 [] = .ok r)
    (hij : i < j)
    (hci : (collectedAt fargs (isPredicativeFunc name) args 0)[i]? = some ci)
    (hvi : jsLookup ci g = some v)
    (hbef : ∀ k ck, k < i →
      (collectedAt fargs (isPredicativeFunc name) args 0)[k]? = some ck →
      jsLookup ck g = none)
    (hcj : (collectedAt fargs (isPredicativeFunc name) args 0)[j]? = some cj)
    (hvj : jsLookup cj g = some w)
    (hok : ∀ cs, (g, cs) ∈ gs →
      cs.any (fun t => isUnknownType t || isEquals v t) = true) :
    jsLookup (constraintFold gs r) g = some v ∧
      resolveFuncGenerics (.func (some gs) fargs frets) args name =
        .ok (patchGenerics (constraintFold gs r) (.func (some gs) fargs frets)) := by
  constructor
  · refine constraintFold_keeps gs r g v ?_ hok
    rw [genericsGo_lookup _ _ _ _ _ _ hrun]
    refine firstSome_of_get _ i v ?_ ?_
    · simp [List.getElem?_map, hci, hvi]
    · intro k hk
      cases hck : (collectedAt fargs (isPredicativeFunc name) args 0)[k]? with
      | none =>
        exfalso
        have hlen_i : i < (collectedAt fargs (isPredicativeFunc name) args 0).length :=
          List.getElem?_eq_some_iff.mp hci |>.1
        have hlen_k : k < (collectedAt fargs (isPredicativeFunc name) args 0).length :=
          Nat.lt_trans hk hlen_i
        rw [List.getElem?_eq_getElem hlen_k] at hck
        exact Option.noConfusion hck
      | some ck =>
        simp [List.getElem?_map, hck, hbef k ck hk hck]
  · simp [resolveFuncGenerics, hrun, Bind.bind, Except.bind]

/-- Witness for C3 at a concrete conflict: `f<T>(a: T, b: T)` applied to
`(int, string)` binds `T` twice; the final substitution keeps the earlier
binding `int`. -/
theorem generic_binding_earliest_argument_wins_witness :
    jsLookup (constraintFold [("T", [.any])] [("T", .string), ("T", .int)]) "T" =
      some .int :=
  (generic_binding_earliest_argument_wins
    [.mk "a" (.generic "T") true false, .mk "b" (.generic "T") true false] ""
    [.int, .string] [("T", [.any])] [.generic "T"]
    [("T", .string), ("T", .int)] [("T", .int)] [("T", .string)]
    "T" .int .string 0 1
    (by simp [genericsGo, stepExpected, collectGenerics, Definition.kind,
      ArgumentDefinition.type, ArgumentDefinition.variadic, isPredicativeFunc])
    Nat.one_pos
    (by simp [collectedAt, stepExpected, collectGenerics, Definition.kind,
      ArgumentDefinition.type, ArgumentDefinition.variadic, isPredicativeFunc])
    (by simp [jsLookup])
    (fun k ck hk _ => absurd hk (Nat.not_lt_zero k))
    (by simp [collectedAt, stepExpected, collectGenerics, Definition.kind,
      ArgumentDefinition.type, ArgumentDefinition.variadic, isPredicativeFunc])
    (by simp [jsLookup])
    (by
      intro cs hcs
      simp only [List.mem_singleton, Prod.mk.injEq] at hcs
      rw [hcs.2]
      simp [isUnknownType, Definition.kind])).1

/-! ## C8: equality across mismatched kinds is one-sided for nil -/

/-- C8 (refuting the claim): the nil-compatibility test of `isEquals` is
one-sided — `isEquals(nil, optional<int>)` is `false` although one of the two
sides is an `optional` and the other is `nil`, so the claimed symmetric
biconditional fails at this input. -/
theorem isEquals_nil_optional_not_symmetric :
    ¬ (isEquals .nil (.optional .int) = true ↔
        ((isNumber .nil = true ∧ isNumber (.optional .int) = true) ∨
         (((Definition.nil).kind = .optional ∨ (Definition.nil).kind = .pointer) ∧
           (Definition.optional .int).kind = .nil) ∨
         (((Definition.optional .int).kind = .optional ∨
            (Definition.optional .int).kind = .pointer) ∧
           (Definition.nil).kind = .nil))) := by
  decide

/-- C8 (amended): for non-null definitions of different kinds, `isEquals a b`
holds exactly when both are numeric, or `a` (the left side) is of kind
`optional` or `pointer` and `b` (the right side) is of kind `nil` — the nil
test is one-sided, so the examples `isEquals(int, float-tag)`,
`isEquals(optional<int>, nil)` and `isEquals(pointer<int>, nil)` hold while
`isEquals(slice<int>, nil)` and the flipped `isEquals(nil, optional<int>)` do
not. -/
theorem isEquals_mismatched_kinds :
    (∀ a b : Definition, a.kind ≠ .jsNull → b.kind ≠ .jsNull → a.kind ≠ b.kind →
      (isEquals a b = true ↔
        ((isNumber a = true ∧ isNumber b = true) ∨
         ((a.kind = .optional ∨ a.kind = .pointer) ∧ b.kind = .nil)))) ∧
      isEquals .int .float = true ∧
      isEquals (.optional .int) .nil = true ∧
      isEquals (.pointer .int) .nil = true ∧
      isEquals (.slice .int) .nil = false := by
  refine ⟨?_, by decide, by decide, by decide, by decide⟩
  intro a b ha hb hk
  have h1 : (a.kind == TKind.jsNull || b.kind == TKind.jsNull) = false := by
    simp [ha, hb]
  have h3 : (a.kind != b.kind) = true := by simpa using hk
  have hb : isEquals a b =
      ((isNumber a && isNumber b) ||
        ((a.kind == TKind.optional || a.kind == TKind.pointer) && b.kind == TKind.nil)) := by
    rw [isEquals.eq_def, h1, h3]
    simp
  rw [hb]
  simp

/-- Witness for the amended C8 at `(int, nil)`: kinds differ, neither side is
null, and both sides of the biconditional are false. -/
theorem isEquals_mismatched_kinds_witness :
    isEquals .int .nil = true ↔
      ((isNumber .int = true ∧ isNumber .nil = true) ∨
       (((Definition.int).kind = .optional ∨ (Definition.int).kind = .pointer) ∧
         (Definition.nil).kind = .nil)) :=
  isEquals_mismatched_kinds.1 .int .nil (by decide) (by decide) (by decide)

/-! ## C4: the `== nil` ternary unwrap never fires -/

/-- C4 (exhibiting the divergence): with `x: optional<int>`, the conditional
`x == nil ? 0 : x` resolves to `any`, not `int` — the unwrap special case
requires the truth branch to be the optional (`t.type !== Optional` breaks
first, because the truth branch `0` is `int`); the mirrored `x != nil ? x : 0`
is the shape the guard actually implements and resolves to `int`. -/
theorem eq_nil_conditional_resolves_any :
    definitionF 20 eqNilState ⟨eqNilTree, .top⟩ = .ok .any ∧
      definitionF 20 neNilState ⟨neNilTree, .top⟩ = .ok .int :=
  ⟨rfl, rfl⟩

/-! ## C6: promoted members override direct fields in getMembers -/

/-- C6 (refuting the claim): for `A { e: B (embedded); X: string }` with
`B = struct { X: int }`, the member table of `A` maps `X` to the promoted
`int` entry, not to the direct `string` field — `getMembers` merges the
promoted members after the direct fields, so the promoted entry wins. -/
theorem getMembers_promoted_overrides_direct_cex :
    getMembersF 5 (embedScope .int) ⟨structA .string, none⟩ =
      .ok [("e", .defined "B"), ("X", .string), ("X", .int)] ∧
      jsLookup [("e", Definition.defined "B"), ("X", Definition.string), ("X", Definition.int)]
        "X" = some .int ∧
      jsLookup [("e", Definition.defined "B"), ("X", Definition.string), ("X", Definition.int)]
        "X" ≠ some .string := by
  refine ⟨?_, by simp [jsLookup], by simp [jsLookup]⟩
  simp [getMembersF, promoteFoldF, resolveRef, embedScope, structA, Definition.kind, jsLookup,
    FieldDefinition.name, FieldDefinition.type, FieldDefinition.embedded]

/-- C6 (amended): whenever a direct field and a promoted member of an embedded
field share a name, the member table returned by `getMembers` contains the
promoted (later-merged) entry for that name, not the direct one: promoted
entries are spread after direct fields and overwrite them (shown here for
every pair of direct type `dX` and promoted type `pX` over the two-struct
registry; `getMember`, by contrast, would return the direct field first). -/
theorem getMembers_promoted_overrides_direct (dX pX : Definition) :
    getMembersF 5 (embedScope pX) ⟨structA dX, none⟩ =
      .ok [("e", .defined "B"), ("X", dX), ("X", pX)] ∧
      jsLookup [("e", Definition.defined "B"), ("X", dX), ("X", pX)] "X" = some pX := by
  constructor
  · simp [getMembersF, promoteFoldF, resolveRef, embedScope, structA, Definition.kind, jsLookup,
      FieldDefinition.name, FieldDefinition.type, FieldDefinition.embedded]
  · simp [jsLookup]

/-- Witness for the amended C6 at `dX = bool`, `pX = float64`. -/
theorem getMembers_promoted_overrides_direct_witness :
    jsLookup [("e", Definition.defined "B"), ("X", Definition.bool), ("X", Definition.float64)]
      "X" = some .float64 :=
  (getMembers_promoted_overrides_direct .bool .float64).2

/-! ## C9: member resolution and named-type indirection diverge on cyclic
registries -/

theorem getBaseTypeF_cyc_aux :
    ∀ fuel, getBaseTypeF fuel cycScope (.defined "T") = .error () := by
  intro fuel
  induction fuel with
  | zero => rfl
  | succ n ih => simpa [getBaseTypeF, cycScope, jsLookup] using ih

theorem getMemberF_cyc_aux :
    ∀ fuel, getMemberF fuel embCycScope embCycObj "zzz" = .error () ∧
      memberScanF fuel embCycScope [.mk "e" (.defined "S") true] "zzz" = .error () := by
  intro fuel
  induction fuel with
  | zero => exact ⟨rfl, rfl⟩
  | succ n ih =>
    constructor
    · simpa [getMemberF, embCycScope, embCycObj, Definition.kind, directField, fieldLookup,
        jsLookup, FieldDefinition.name, FieldDefinition.type] using ih.2
    · have h1 := ih.1
      simp [memberScanF, embCycScope, embCycObj, resolveRef, Definition.kind, jsLookup,
        FieldDefinition.type, FieldDefinition.embedded] at h1 ⊢
      simp [h1]

theorem getMembersF_cyc_aux :
    ∀ fuel, getMembersF fuel embCycScope embCycObj = .error () ∧
      promoteFoldF fuel embCycScope [.mk "e" (.defined "S") true]
        [("e", .defined "S")] = .error () := by
  intro fuel
  induction fuel with
  | zero => exact ⟨rfl, rfl⟩
  | succ n ih =>
    constructor
    · simpa [getMembersF, embCycScope, embCycObj, Definition.kind, jsLookup,
        FieldDefinition.name, FieldDefinition.type] using ih.2
    · have h1 := ih.1
      simp [promoteFoldF, embCycScope, embCycObj, resolveRef, Definition.kind, jsLookup,
        FieldDefinition.type, FieldDefinition.embedded] at h1 ⊢
      simp [h1]

/-- C9 (exhibiting the divergence): on the self-referential registry
`type T = T` the `getBaseType` loop never exits, and on the self-embedding
struct `S { e: S (embedded) }` neither `getMember` nor `getMembers` returns:
for every fuel bound the fueled embedding fails to produce a value, so none of
the three returns in finitely many steps (the spec itself flags the missing
cycle guard in its sections 3 and 9). -/
theorem member_resolution_diverges_on_cycles :
    (∀ fuel, getBaseTypeF fuel cycScope (.defined "T") = .error ()) ∧
      (∀ fuel, getMemberF fuel embCycScope embCycObj "zzz" = .error ()) ∧
      (∀ fuel, getMembersF fuel embCycScope embCycObj = .error ()) :=
  ⟨getBaseTypeF_cyc_aux, fun fuel => (getMemberF_cyc_aux fuel).1,
    fun fuel => (getMembersF_cyc_aux fuel).1⟩

/-! ## C10: `uint` and `uintptr` are not numeric -/

/-- C10: `isNumber` rejects the primitive integer kinds `uint` and `uintptr`,
so the arithmetic expression `u + v` with both operands of kind `uint` is not
widened to the `float` tag; it resolves through the same-kind structural
equality (`isEquals(uint, uint)`) to `uint`. -/
theorem uint_not_widened_to_float :
    isNumber .uint = false ∧ isNumber .uintptr = false ∧
      definitionF 20 uState ⟨uTree, .top⟩ = .ok .uint :=
  ⟨rfl, rfl, rfl⟩

/-! ## C5: pipe-call equivalence

The two programs `arr | filter(# > 2)` and `filter(arr, # > 2)` are resolved
layer by layer; every lemma quantifies over the host scope (`rest`, `tys`) so
the equivalence holds for any environment in which `arr: slice<int>` and
`filter` is the builtin. -/

theorem filterResolvedL :
    resolveFuncGenerics
      (.func (some [("T", [.any])])
        [.mk "array" (.slice (.generic "T")) true false,
         .mk "predicate" (.func none [.mk "#" (.generic "T") true false] [.bool]) true false]
        [.slice (.generic "T")])
      [.slice .int, .bool] "filter" =
      .ok (.func none
        [.mk "array" (.slice .int) true false,
         .mk "predicate" (.func none [.mk "#" .int true false] [.bool]) true false]
        [.slice .int]) := by
  simp [resolveFuncGenerics, genericsGo, stepExpected, collectGenerics, constraintFold,
    constraintStep, List.foldl_cons, List.foldl_nil, patchGenerics, patchGenericsArgs,
    patchGenericsList, isPredicativeFunc, Definition.kind, jsLookup, jsMem, isUnknownType,
    ArgumentDefinition.type, ArgumentDefinition.variadic, Bind.bind, Except.bind]

theorem definitionF_call (fuel : Nat) (st : EState) (a b : Nat) (ch : List Tree)
    (c : Ctx) :
    definitionF (fuel + 1) st ⟨Tree.mk "CallExpr" a b ch, c⟩ =
      callExprStep fuel st ⟨Tree.mk "CallExpr" a b ch, c⟩ := by
  simp [definitionF, callExprStep, Tree.name]

theorem definitionF_pipe (fuel : Nat) (st : EState) (a b : Nat) (ch : List Tree)
    (c : Ctx) :
    definitionF (fuel + 1) st ⟨Tree.mk "PipeExpr" a b ch, c⟩ =
      getDefinitionF fuel st
        ((SNode.getChildren ⟨Tree.mk "PipeExpr" a b ch, c⟩ "Expr").getLast?) := by
  simp [definitionF, Tree.name]

theorem c5_call_arr (rest tys) (n : Nat) (c : Ctx) :
    getDefinitionF (n + 2) (callState rest tys) (some ⟨callArrTree, c⟩) = .ok (.slice .int) := by
  have s2 : sliceDoc callDoc 7 10 = "arr" := rfl
  simp [getDefinitionF, definitionF, callArrTree, callState, c5Vars, s2, getScope,
    jsLookup_append, jsLookup, Tree.name, Tree.start, Tree.stop]

theorem c5_call_pred (rest tys) (n : Nat) (c : Ctx) :
    getDefinitionF (n + 2) (callState rest tys) (some ⟨callPredTree, c⟩) = .ok .bool := by
  simp [getDefinitionF, definitionF, callPredTree, SNode.getChildren, SNode.getChild,
    SNode.childNodes, zipChildren, typeIs, exprGroup, opGroup, Tree.name, Tree.start,
    Tree.stop, Tree.children]

theorem c5_call_filter (rest tys) (n : Nat) (c : Ctx) :
    getDefinitionF (n + 2) (callState rest tys) (some ⟨.mk "VarName" 0 6 [], c⟩) =
      .ok (.func (some [("T", [.any])])
        [.mk "array" (.slice (.generic "T")) true false,
         .mk "predicate" (.func none [.mk "#" (.generic "T") true false] [.bool]) true false]
        [.slice (.generic "T")]) := by
  have s1 : sliceDoc callDoc 0 6 = "filter" := rfl
  simp [getDefinitionF, definitionF, callState, c5Vars, s1, getScope, jsLookup_append,
    jsLookup, Tree.name, Tree.start, Tree.stop, filterBuiltin, arrayParam, sliceT,
    boolPredicate]

theorem c5_call_args (rest tys) (n : Nat) (c1 c2 : Ctx) :
    defineAll (n + 4) (callState rest tys)
      [some ⟨callArrTree, c1⟩, some ⟨callPredTree, c2⟩] = .ok [.slice .int, .bool] := by
  simp [defineAll, c5_call_arr, c5_call_pred]

theorem c5_call_eval (rest tys) (n : Nat) :
    definitionF (n + 6) (callState rest tys) ⟨callTree, .top⟩ = .ok (.slice .int) := by
  have s1 : sliceDoc (callState rest tys).doc 0 6 = "filter" := rfl
  have hc : SNode.getChild
      ⟨Tree.mk "CallExpr" 0 18
        [Tree.mk "VarName" 0 6 [],
         Tree.mk "Arguments" 6 18 [callArrTree, Tree.mk "," 10 11 [], callPredTree]],
       Ctx.top⟩ "Expr" =
      some ⟨Tree.mk "VarName" 0 6 [],
        Ctx.cons "CallExpr" 0 18 []
          [Tree.mk "Arguments" 6 18 [callArrTree, Tree.mk "," 10 11 [], callPredTree]]
          Ctx.top⟩ := rfl
  have ha : SNode.getChild
      ⟨Tree.mk "CallExpr" 0 18
        [Tree.mk "VarName" 0 6 [],
         Tree.mk "Arguments" 6 18 [callArrTree, Tree.mk "," 10 11 [], callPredTree]],
       Ctx.top⟩ "Arguments" =
      some ⟨Tree.mk "Arguments" 6 18 [callArrTree, Tree.mk "," 10 11 [], callPredTree],
        Ctx.cons "CallExpr" 0 18 [Tree.mk "VarName" 0 6 []] [] Ctx.top⟩ := rfl
  have he : (SNode.getChildren
        ⟨Tree.mk "Arguments" 6 18 [callArrTree, Tree.mk "," 10 11 [], callPredTree],
          Ctx.cons "CallExpr" 0 18 [Tree.mk "VarName" 0 6 []] [] Ctx.top⟩ "Expr").map some =
      [some ⟨callArrTree,
          Ctx.cons "Arguments" 6 18 [] [Tree.mk "," 10 11 [], callPredTree]
            (Ctx.cons "CallExpr" 0 18 [Tree.mk "VarName" 0 6 []] [] Ctx.top)⟩,
       some ⟨callPredTree,
          Ctx.cons "Arguments" 6 18 [Tree.mk "," 10 11 [], callArrTree] []
            (Ctx.cons "CallExpr" 0 18 [Tree.mk "VarName" 0 6 []] [] Ctx.top)⟩] := rfl
  have hp : SNode.parent
      ⟨Tree.mk "CallExpr" 0 18
        [Tree.mk "VarName" 0 6 [],
         Tree.mk "Arguments" 6 18 [callArrTree, Tree.mk "," 10 11 [], callPredTree]],
       Ctx.top⟩ = none := rfl
  simp [callTree, definitionF_call, callExprStep, hc, ha, he, hp, c5_call_filter,
    c5_call_args, filterResolvedL, s1, Tree.name, Tree.start, Tree.stop]

theorem c5_pipe_arr (rest tys) (n : Nat) (c : Ctx) :
    getDefinitionF (n + 2) (pipeState rest tys) (some ⟨.mk "VarName" 0 3 [], c⟩) =
      .ok (.slice .int) := by
  have s2 : sliceDoc pipeDoc 0 3 = "arr" := rfl
  simp [getDefinitionF, definitionF, pipeState, c5Vars, s2, getScope, jsLookup_append,
    jsLookup, Tree.name, Tree.start, Tree.stop]

theorem c5_pipe_pred (rest tys) (n : Nat) (c : Ctx) :
    getDefinitionF (n + 2) (pipeState rest tys) (some ⟨pipePredTree, c⟩) = .ok .bool := by
  simp [getDefinitionF, definitionF, pipePredTree, SNode.getChildren, SNode.getChild,
    SNode.childNodes, zipChildren, typeIs, exprGroup, opGroup, Tree.name, Tree.start,
    Tree.stop, Tree.children]

theorem c5_pipe_filter (rest tys) (n : Nat) (c : Ctx) :
    getDefinitionF (n + 2) (pipeState rest tys) (some ⟨.mk "VarName" 6 12 [], c⟩) =
      .ok (.func (some [("T", [.any])])
        [.mk "array" (.slice (.generic "T")) true false,
         .mk "predicate" (.func none [.mk "#" (.generic "T") true false] [.bool]) true false]
        [.slice (.generic "T")]) := by
  have s1 : sliceDoc pipeDoc 6 12 = "filter" := rfl
  simp [getDefinitionF, definitionF, pipeState, c5Vars, s1, getScope, jsLookup_append,
    jsLookup, Tree.name, Tree.start, Tree.stop, filterBuiltin, arrayParam, sliceT,
    boolPredicate]

theorem c5_pipe_args (rest tys) (n : Nat) (c1 c2 : Ctx) :
    defineAll (n + 4) (pipeState rest tys)
      [some ⟨.mk "VarName" 0 3 [], c1⟩, some ⟨pipePredTree, c2⟩] =
      .ok [.slice .int, .bool] := by
  simp [defineAll, c5_pipe_arr, c5_pipe_pred]

theorem c5_pipe_call_eval (rest tys) (n : Nat) :
    definitionF (n + 6) (pipeState rest tys)
      ⟨pipeCallTree, .cons "PipeExpr" 0 19 [.mk "VarName" 0 3 []] [] .top⟩ =
      .ok (.slice .int) := by
  have s1 : sliceDoc (pipeState rest tys).doc 6 12 = "filter" := rfl
  have hc : SNode.getChild
      ⟨Tree.mk "CallExpr" 6 19
        [Tree.mk "VarName" 6 12 [], Tree.mk "Arguments" 12 19 [pipePredTree]],
       Ctx.cons "PipeExpr" 0 19 [Tree.mk "VarName" 0 3 []] [] Ctx.top⟩ "Expr" =
      some ⟨Tree.mk "VarName" 6 12 [],
        Ctx.cons "CallExpr" 6 19 [] [Tree.mk "Arguments" 12 19 [pipePredTree]]
          (Ctx.cons "PipeExpr" 0 19 [Tree.mk "VarName" 0 3 []] [] Ctx.top)⟩ := rfl
  have ha : SNode.getChild
      ⟨Tree.mk "CallExpr" 6 19
        [Tree.mk "VarName" 6 12 [], Tree.mk "Arguments" 12 19 [pipePredTree]],
       Ctx.cons "PipeExpr" 0 19 [Tree.mk "VarName" 0 3 []] [] Ctx.top⟩ "Arguments" =
      some ⟨Tree.mk "Arguments" 12 19 [pipePredTree],
        Ctx.cons "CallExpr" 6 19 [Tree.mk "VarName" 6 12 []] []
          (Ctx.cons "PipeExpr" 0 19 [Tree.mk "VarName" 0 3 []] [] Ctx.top)⟩ := rfl
  have he : (SNode.getChildren
        ⟨Tree.mk "Arguments" 12 19 [pipePredTree],
          Ctx.cons "CallExpr" 6 19 [Tree.mk "VarName" 6 12 []] []
            (Ctx.cons "PipeExpr" 0 19 [Tree.mk "VarName" 0 3 []] [] Ctx.top)⟩
        "Expr").map some =
      [some ⟨pipePredTree,
        Ctx.cons "Arguments" 12 19 [] []
          (Ctx.cons "CallExpr" 6 19 [Tree.mk "VarName" 6 12 []] []
            (Ctx.cons "PipeExpr" 0 19 [Tree.mk "VarName" 0 3 []] [] Ctx.top))⟩] := rfl
  have hp : SNode.parent
      ⟨Tree.mk "CallExpr" 6 19
        [Tree.mk "VarName" 6 12 [], Tree.mk "Arguments" 12 19 [pipePredTree]],
       Ctx.cons "PipeExpr" 0 19 [Tree.mk "VarName" 0 3 []] [] Ctx.top⟩ =
      some ⟨Tree.mk "PipeExpr" 0 19
        [Tree.mk "VarName" 0 3 [],
         Tree.mk "CallExpr" 6 19
           [Tree.mk "VarName" 6 12 [], Tree.mk "Arguments" 12 19 [pipePredTree]]],
        Ctx.top⟩ := rfl
  have hsib : SNode.prevSib
      ⟨Tree.mk "CallExpr" 6 19
        [Tree.mk "VarName" 6 12 [], Tree.mk "Arguments" 12 19 [pipePredTree]],
       Ctx.cons "PipeExpr" 0 19 [Tree.mk "VarName" 0 3 []] [] Ctx.top⟩ =
      some ⟨Tree.mk "VarName" 0 3 [],
        Ctx.cons "PipeExpr" 0 19 []
          [Tree.mk "CallExpr" 6 19
            [Tree.mk "VarName" 6 12 [], Tree.mk "Arguments" 12 19 [pipePredTree]]]
          Ctx.top⟩ := rfl
  have hpe : SNode.getChild
      ⟨Tree.mk "PipeExpr" 0 19
        [Tree.mk "VarName" 0 3 [],
         Tree.mk "CallExpr" 6 19
           [Tree.mk "VarName" 6 12 [], Tree.mk "Arguments" 12 19 [pipePredTree]]],
       Ctx.top⟩ "Expr" =
      some ⟨Tree.mk "VarName" 0 3 [],
        Ctx.cons "PipeExpr" 0 19 []
          [Tree.mk "CallExpr" 6 19
            [Tree.mk "VarName" 6 12 [], Tree.mk "Arguments" 12 19 [pipePredTree]]]
          Ctx.top⟩ := rfl
  simp [pipeCallTree, definitionF_call, callExprStep, hc, ha, he, hp, hsib, hpe,
    c5_pipe_filter, c5_pipe_args, filterResolvedL, s1, typeIs, exprGroup, opGroup,
    Tree.name, Tree.start, Tree.stop]

theorem c5_pipe_call_g (rest tys) (n : Nat) :
    getDefinitionF (n + 7) (pipeState rest tys)
      (some ⟨pipeCallTree, .cons "PipeExpr" 0 19 [.mk "VarName" 0 3 []] [] .top⟩) =
      .ok (.slice .int) := by
  simp [getDefinitionF, c5_pipe_call_eval]

theorem c5_pipe_eval (rest tys) (n : Nat) :
    definitionF (n + 8) (pipeState rest tys) ⟨pipeTree, .top⟩ = .ok (.slice .int) := by
  have hl : (SNode.getChildren
        ⟨Tree.mk "PipeExpr" 0 19 [Tree.mk "VarName" 0 3 [], pipeCallTree], Ctx.top⟩
        "Expr").getLast? =
      some ⟨pipeCallTree, Ctx.cons "PipeExpr" 0 19 [Tree.mk "VarName" 0 3 []] [] Ctx.top⟩ :=
    rfl
  simp [pipeTree, definitionF_pipe, hl, c5_pipe_call_g]

/-- C5: for any host scope in which `arr: slice<int>` and `filter` is the
builtin, the pipe expression `arr | filter(# > 2)` and the direct call
`filter(arr, # > 2)` resolve to the same type — the pipe source is prepended
as argument 0 of the right-hand call — and that common type is `slice<int>`. -/
theorem pipe_call_type_equivalence (rest : Rec VariableDefinition) (tys : Rec DefObj) :
    definitionF 100 (pipeState rest tys) ⟨pipeTree, .top⟩ =
      definitionF 100 (callState rest tys) ⟨callTree, .top⟩ ∧
      definitionF 100 (pipeState rest tys) ⟨pipeTree, .top⟩ = .ok (.slice .int) :=
  ⟨(c5_pipe_eval rest tys 92).trans (c5_call_eval rest tys 94).symm,
    c5_pipe_eval rest tys 92⟩

/-- Witness for C5 at the empty host scope. -/
theorem pipe_call_type_equivalence_witness :
    definitionF 100 (pipeState [] []) ⟨pipeTree, .top⟩ = .ok (.slice .int) :=
  (pipe_call_type_equivalence [] []).2

/-! ## C7: which declaration wins in `getLocalScope`

`let a = 1; let a = "s"; a`: both declarations of `a` end strictly before the
position of the trailing `a` (24); the walk merges each accepted declaration
as `{[def.name]: def, ...scope}`, spreading the existing scope last, so the
earliest declaration is kept, not the one closer to the position. -/

theorem localScopeFold_eq_declList (fuel : Nat) (st : EState) (bound : Nat) :
    ∀ (ns : List SNode) (init : Rec VariableDefinition),
      localScopeFold fuel st bound ns init =
        (declListF fuel st bound ns).map
          (fun ds => ds.reverse.map (fun d => (d.name, d)) ++ init) := by
  induction fuel with
  | zero => intro ns init; rfl
  | succ n ih =>
    intro ns init
    cases ns with
    | nil => rfl
    | cons hd tl =>
      simp only [localScopeFold, declListF]
      split
      · cases htv : toVarDeclarationF n st hd with
        | error e => simp [htv, Except.map]
        | ok o =>
          cases o with
          | none => simp only [htv]; exact ih tl init
          | some vd =>
            simp only [htv]
            rw [ih tl ([(vd.name, vd)] ++ init)]
            cases hdl : declListF n st bound tl with
            | error e => simp [hdl, Except.map]
            | ok ds => simp [hdl, Except.map, List.reverse_cons]
      · exact ih tl init

theorem jsLookup_revMap (ds : List VariableDefinition) (nm : String) :
    jsLookup (ds.reverse.map (fun d => (d.name, d))) nm =
      ds.find? (fun d => d.name == nm) := by
  induction ds with
  | nil => rfl
  | cons h t ih =>
    have hsplit : (h :: t).reverse.map (fun d : VariableDefinition => (d.name, d)) =
        t.reverse.map (fun d => (d.name, d)) ++ [(h.name, h)] := by simp
    rw [hsplit, jsLookup_append]
    cases hc : h.name == nm with
    | true => simp [jsLookup, hc, List.find?]
    | false => simpa [jsLookup, hc, List.find?] using ih

theorem c7_ptr (n : Nat) :
    getPointersGo (n + 2) letState letTarget letTarget = .ok [] := by
  simp [getPointersGo, letTarget, letVarDecl1, letVarDecl2, SNode.parent, Tree.name]

theorem c7_tv1 (n : Nat) :
    toVarDeclarationF (n + 3) letState
      ⟨Tree.mk "VarDecl" 0 9 [Tree.mk "DefName" 4 5 [], Tree.mk "Integer" 8 9 []],
       Ctx.cons "Script" 0 25 []
         [Tree.mk "VarDecl" 11 22 [Tree.mk "DefName" 15 16 [], Tree.mk "String" 19 22 []],
          Tree.mk "VarName" 24 25 []] Ctx.top⟩ = .ok (some letIntDef) := by
  have s1 : sliceDoc letState.doc 4 5 = "a" := rfl
  simp [toVarDeclarationF, getDefinitionF, definitionF, SNode.getChild, SNode.getChildren,
    SNode.childNodes, zipChildren, typeIs, exprGroup, opGroup, Tree.name, Tree.start,
    Tree.stop, Tree.children, SNode.prevSib, SNode.parent, collectComments, s1, letIntDef]

theorem c7_tv2 (n : Nat) :
    toVarDeclarationF (n + 3) letState
      ⟨Tree.mk "VarDecl" 11 22 [Tree.mk "DefName" 15 16 [], Tree.mk "String" 19 22 []],
       Ctx.cons "Script" 0 25
         [Tree.mk "VarDecl" 0 9 [Tree.mk "DefName" 4 5 [], Tree.mk "Integer" 8 9 []]]
         [Tree.mk "VarName" 24 25 []] Ctx.top⟩ = .ok (some letStrDef) := by
  have s1 : sliceDoc letState.doc 15 16 = "a" := rfl
  simp [toVarDeclarationF, getDefinitionF, definitionF, SNode.getChild, SNode.getChildren,
    SNode.childNodes, zipChildren, typeIs, exprGroup, opGroup, Tree.name, Tree.start,
    Tree.stop, Tree.children, SNode.prevSib, SNode.parent, collectComments, s1, letStrDef]

theorem c7_nodes :
    allNodesT
      (Tree.mk "Script" 0 25
        [Tree.mk "VarDecl" 0 9 [Tree.mk "DefName" 4 5 [], Tree.mk "Integer" 8 9 []],
         Tree.mk "VarDecl" 11 22 [Tree.mk "DefName" 15 16 [], Tree.mk "String" 19 22 []],
         Tree.mk "VarName" 24 25 []]) Ctx.top = letNodes := by
  simp [allNodesT, allNodesChildren, letNodes]

theorem c7_fold (n : Nat) :
    localScopeFold (n + 9) letState 24 letNodes [] =
      .ok [("a", letStrDef), ("a", letIntDef)] := by
  simp [letNodes, localScopeFold, c7_tv1, c7_tv2, Tree.name, Tree.stop, letIntDef,
    letStrDef]

theorem c7_decl (n : Nat) :
    declListF (n + 9) letState 24 letNodes = .ok [letIntDef, letStrDef] := by
  simp [letNodes, declListF, c7_tv1, c7_tv2, Tree.name, Tree.stop, letIntDef, letStrDef]

theorem c7_run (n : Nat) :
    getLocalScopeF (n + 10) letState letTarget (some 24) =
      .ok [("a", letStrDef), ("a", letIntDef)] := by
  have hroot : letTarget.root.t =
      Tree.mk "Script" 0 25
        [Tree.mk "VarDecl" 0 9 [Tree.mk "DefName" 4 5 [], Tree.mk "Integer" 8 9 []],
         Tree.mk "VarDecl" 11 22 [Tree.mk "DefName" 15 16 [], Tree.mk "String" 19 22 []],
         Tree.mk "VarName" 24 25 []] := by
    simp [letTarget, letVarDecl1, letVarDecl2, SNode.root]
  simp [getLocalScopeF, c7_ptr, hroot, c7_nodes, c7_fold]

theorem c7_decl_closed :
    declListF 99 letState ((some 24).getD letTarget.t.start)
      (allNodesT letTarget.root.t Ctx.top) = .ok [letIntDef, letStrDef] := by
  have hroot : letTarget.root.t =
      Tree.mk "Script" 0 25
        [Tree.mk "VarDecl" 0 9 [Tree.mk "DefName" 4 5 [], Tree.mk "Integer" 8 9 []],
         Tree.mk "VarDecl" 11 22 [Tree.mk "DefName" 15 16 [], Tree.mk "String" 19 22 []],
         Tree.mk "VarName" 24 25 []] := by
    simp [letTarget, letVarDecl1, letVarDecl2, SNode.root]
  rw [show (some 24).getD letTarget.t.start = 24 from rfl, hroot, c7_nodes]
  exact c7_decl 90

/-- C7 (counterexample to the claim as stated): in `let a = 1; let a = "s"; a`
both declarations of `a` end strictly before position 24 and the second
(`let a = "s"`, of type string) is the one closer to that position, yet
`getLocalScope` resolves `a` to the first declaration (`let a = 1`, of type
int): the merge `{[def.name]: def, ...scope}` spreads the existing scope last,
so the earliest declaration — not the later one — wins. -/
theorem local_scope_later_decl_does_not_shadow :
    getLocalScopeF 100 letState letTarget (some 24) =
      .ok [("a", letStrDef), ("a", letIntDef)] ∧
    jsLookup [("a", letStrDef), ("a", letIntDef)] "a" = some letIntDef ∧
    letIntDef ≠ letStrDef := by
  refine ⟨c7_run 90, rfl, ?_⟩
  simp [letIntDef, letStrDef]

/-- C7 (amended): for every document position `pos`, among the well-formed
declarations occurring strictly before `pos` the EARLIEST declaration of a
name decides its binding in `getLocalScope` (later declarations do not shadow
it), provided the pointer scope the walk starts from does not already bind the
name: the result maps `nm` to the first entry of the accepted declaration list
whose name is `nm`. -/
theorem local_scope_earliest_declaration_wins
    (fuel : Nat) (st : EState) (target : SNode) (pos : Option Nat) (nm : String)
    (init res : Rec VariableDefinition) (ds : List VariableDefinition)
    (d : VariableDefinition)
    (hrun : getLocalScopeF (fuel + 1) st target pos = .ok res)
    (hptr : getPointersGo fuel st target target = .ok init)
    (hinit : jsLookup init nm = none)
    (hds : declListF fuel st (pos.getD target.t.start)
      (allNodesT target.root.t Ctx.top) = .ok ds)
    (hfind : ds.find? (fun d2 => d2.name == nm) = some d) :
    jsLookup res nm = some d := by
  simp only [getLocalScopeF, hptr] at hrun
  rw [localScopeFold_eq_declList fuel st (pos.getD target.t.start)
    (allNodesT target.root.t Ctx.top) init, hds] at hrun
  simp only [Except.map, Except.ok.injEq] at hrun
  rw [← hrun, jsLookup_append, hinit, jsLookup_revMap, hfind]

/-- Witness for C7 (amended) on the shadowing document: the earliest
declaration `let a = 1` decides the binding of `a`. -/
theorem local_scope_earliest_declaration_wins_witness :
    jsLookup [("a", letStrDef), ("a", letIntDef)] "a" = some letIntDef :=
  local_scope_earliest_declaration_wins 99 letState letTarget (some 24) "a" []
    [("a", letStrDef), ("a", letIntDef)] [letIntDef, letStrDef] letIntDef
    (c7_run 90) (c7_ptr 97) rfl c7_decl_closed rfl

end ExprSpec
